import Mathlib

/-!
# Transfer timelapse: dataset loader and replay engine

A shallow embedding of the bookkeeping code of `src/App.jsx`:

* the dataset loader (the fetch effect, lines 30-109): sort, node map, skip test,
  synthetic timeline, block delta;
* `handleRestart` (lines 126-137);
* the replay pass (the `useMemo` body, lines 139-198): admission loop, windowing,
  snapshot assembly.

Conventions of the embedding.

* A cell holding an address is `Option String`: `none` is an absent cell
  (`undefined` / `null`), `some ""` the empty string; both are falsy.
* A JavaScript number is a `JsNum`: `NaN`, one of the two infinities, or a finite number
  with an integer value; sums and differences are rounded to the nearest double, ties to
  even, and overflow to an infinity. The two zeros are identified (the code never tells
  them apart) and fractions are not modelled. A numeric cell (`value`, `blocknumber`) is
  given by its numeric reading before rounding; a cell that is missing or not numeric reads
  `NaN`.
* Timestamps and all times (`normalizedTime`, `endTime`, `elapsed`) are integers; they are
  only compared.
* A JavaScript `Map` is an insertion-ordered association list, a `Set` an
  insertion-ordered list without repetition.
* The React refs are the fields of `Refs`; a pass takes the refs and returns the new refs
  together with the value the `useMemo` callback returns.
* The coordinates drawn with `Math.random` and `Math.hypot` are parameters (`Layout`).
-/

namespace Timelapse

/-! ## Constants (lines 5-7) -/

/-- The persistence of an edge after its animation, `EDGE_PERSISTENCE`. -/
def EDGE_PERSISTENCE : Int := 8000

/-- Constant spacing of the synthetic timeline, `TX_INTERVAL`. -/
def TX_INTERVAL : Int := 600

/-! ## JavaScript values -/

/-- An address cell: a string, or nothing. -/
abbrev Addr := Option String

/-- JavaScript truthiness of an address cell (`tx.from && ...`). -/
def truthy : Addr → Bool
  | some s => s != ""
  | none => false

/-- A JavaScript number: `NaN`, `Infinity`, `-Infinity`, or a finite number with an integer
value. As the reading of a table cell, `num n` is the numeral `n` before it is rounded to
a double. -/
inductive JsNum where
  | nan
  | posInf
  | negInf
  | num (n : Int)
deriving DecidableEq, Repr

/-- The number of binary digits of `m`, computed with `fuel` halvings. -/
def bitLength : Nat → Nat → Nat
  | 0, _ => 0
  | fuel + 1, m => if m = 0 then 0 else bitLength fuel (m / 2) + 1

/-- The double nearest to the integer `n` (round to nearest, ties to even; 53 significant
bits; a result of 1025 or more bits is an infinity). -/
def roundToDouble (n : Int) : JsNum :=
  let m := n.natAbs
  if m < 2 ^ 53 then JsNum.num n
  else
    let e := bitLength m m - 53
    let q := m / 2 ^ e
    let r := m % 2 ^ e
    let half := 2 ^ (e - 1)
    let q1 := if half < r ∨ (r = half ∧ q % 2 = 1) then q + 1 else q
    let v := q1 * 2 ^ e
    if 1024 < bitLength v v then (if n < 0 then JsNum.negInf else JsNum.posInf)
    else JsNum.num (if n < 0 then -(v : Int) else (v : Int))

/-- The conversion `Number(c)` of a numeric cell. -/
def toNumber : JsNum → JsNum
  | JsNum.num n => roundToDouble n
  | x => x

/-- The unary minus of numbers. -/
def jsNeg : JsNum → JsNum
  | JsNum.nan => JsNum.nan
  | JsNum.posInf => JsNum.negInf
  | JsNum.negInf => JsNum.posInf
  | JsNum.num n => JsNum.num (-n)

/-- The addition `a + b` of numbers. -/
def jsAdd : JsNum → JsNum → JsNum
  | JsNum.nan, _ => JsNum.nan
  | _, JsNum.nan => JsNum.nan
  | JsNum.posInf, JsNum.negInf => JsNum.nan
  | JsNum.negInf, JsNum.posInf => JsNum.nan
  | JsNum.posInf, _ => JsNum.posInf
  | _, JsNum.posInf => JsNum.posInf
  | JsNum.negInf, _ => JsNum.negInf
  | _, JsNum.negInf => JsNum.negInf
  | JsNum.num a, JsNum.num b => roundToDouble (a + b)

/-- The subtraction `a - b` of numbers. -/
def jsSub (a b : JsNum) : JsNum := jsAdd a (jsNeg b)

/-- The call `Math.max(0, x)`. -/
def max0 : JsNum → JsNum
  | JsNum.nan => JsNum.nan
  | JsNum.posInf => JsNum.posInf
  | JsNum.negInf => JsNum.num 0
  | JsNum.num n => JsNum.num (max 0 n)

/-- The expression `x || 0` for a number `x`: `NaN` and zero are falsy. -/
def jsOrZero : JsNum → JsNum
  | JsNum.nan => JsNum.num 0
  | x => x

/-- The expression `m.get(k) || 0` for a lookup in a map of numbers. -/
def getJsOrZero : Option JsNum → JsNum
  | some v => jsOrZero v
  | none => JsNum.num 0

/-- The expression `v || 0` for a time `v`. -/
def numOrZero (v : Int) : Int := if v = 0 then 0 else v

/-- The expression `m.get(k) || 0` for a lookup in a map of times. -/
def getOrZero : Option Int → Int
  | some v => numOrZero v
  | none => 0

/-- An insertion-ordered `Map` with address keys. -/
abbrev JsMap (α : Type) := List (Addr × α)

/-- The lookup `Map.prototype.get`. -/
def mapGet {α : Type} : JsMap α → Addr → Option α
  | [], _ => none
  | (k, v) :: m, a => if k = a then some v else mapGet m a

/-- The test `Map.prototype.has`. -/
def mapHas {α : Type} (m : JsMap α) (a : Addr) : Bool := (mapGet m a).isSome

/-- The update `Map.prototype.set`: an existing key keeps its place, a new key goes last. -/
def mapSet {α : Type} : JsMap α → Addr → α → JsMap α
  | [], a, v => [(a, v)]
  | (k, w) :: m, a, v => if k = a then (k, v) :: m else (k, w) :: mapSet m a v

/-- The values of a map in insertion order, `Array.from(m.values())`. -/
def mapValues {α : Type} (m : JsMap α) : List α := m.map Prod.snd

/-- The insertion `Set.prototype.add`. -/
def setAdd (s : List Addr) (a : Addr) : List Addr := if a ∈ s then s else s ++ [a]

/-! ## Data model -/

/-- A row of the transposed table (lines 40-46). -/
structure Row where
  from_ : Addr
  to_ : Addr
  value : JsNum
  blocknumber : JsNum
  timestamp : Int
deriving DecidableEq, Repr

/-- A node object as created by the loader (lines 53-57, 60-64). -/
structure Node where
  id : Addr
  x : Int
  y : Int
deriving DecidableEq, Repr

/-- The random initial coordinates of each node and the distance function:
`x a`, `y a` are the two draws of `(Math.random() - 0.5) * 100` for the node with id `a`,
`hypot` is `Math.hypot`. -/
structure Layout where
  x : Addr → Int
  y : Addr → Int
  hypot : Int → Int → Int

/-- A processed transfer record (lines 89-100). -/
structure Tx where
  from_ : Addr
  to_ : Addr
  blocknumber : JsNum
  timestamp : Int
  source : Addr
  target : Addr
  sourceObj : Node
  targetObj : Node
  value : JsNum
  normalizedTime : Int
  blockDiff : JsNum
  duration : Int
  endTime : Int
deriving DecidableEq, Repr

/-- The fields of a processed record that come from its row (`...tx`, with `value`
overwritten by the coerced number). -/
def Tx.row (t : Tx) : Row :=
  { from_ := t.from_, to_ := t.to_, value := t.value, blocknumber := t.blocknumber,
    timestamp := t.timestamp }

/-! ## Dataset loader (lines 48-106) -/

/-- The call `rowData.sort((a, b) => Number(a.timestamp) - Number(b.timestamp))`: a stable
sort by ascending timestamp. -/
def sortRows (rows : List Row) : List Row :=
  rows.insertionSort (fun a b => a.timestamp ≤ b.timestamp)

/-- One of the two `if` statements of lines 52-65. -/
def addNode (L : Layout) (m : JsMap Node) (a : Addr) : JsMap Node :=
  if truthy a && !mapHas m a then mapSet m a { id := a, x := L.x a, y := L.y a } else m

/-- The loop of lines 50-66 building `nodesMap`. -/
def nodesMap (L : Layout) (rowData : List Row) : JsMap Node :=
  rowData.foldl (fun m tx => addNode L (addNode L m tx.from_) tx.to_) []

/-- The variables the second loop mutates: `processedData` and `sequenceIndex`. -/
structure LoadState where
  processedData : List Tx
  sequenceIndex : Int
deriving DecidableEq, Repr

/-- The body of the loop of lines 73-103. -/
def processRow (L : Layout) (nm : JsMap Node) (st : LoadState) (tx : Row) : LoadState :=
  match mapGet nm tx.from_, mapGet nm tx.to_ with
  | some sourceObj, some targetObj =>
    if sourceObj = targetObj then st
    else
      let normalizedTime := st.sequenceIndex * TX_INTERVAL
      let prevBlock :=
        match st.processedData.getLast? with
        | some prevTx => prevTx.blocknumber
        | none => tx.blocknumber
      let blockDiff := max0 (jsSub (toNumber tx.blocknumber) (toNumber prevBlock))
      let dist := L.hypot (targetObj.x - sourceObj.x) (targetObj.y - sourceObj.y)
      -- `dist / CONSTANT_SPEED` with `CONSTANT_SPEED = 0.25`
      let duration := dist * 4
      let value := jsOrZero (toNumber tx.value)
      { processedData := st.processedData ++
          [{ from_ := tx.from_, to_ := tx.to_, blocknumber := tx.blocknumber,
             timestamp := tx.timestamp, source := sourceObj.id, target := targetObj.id,
             sourceObj := sourceObj, targetObj := targetObj, value := value,
             normalizedTime := normalizedTime, blockDiff := blockDiff, duration := duration,
             endTime := normalizedTime + duration + EDGE_PERSISTENCE }],
        sequenceIndex := st.sequenceIndex + 1 }
  | _, _ => st

/-- The second loop run over already sorted rows with a given node map. -/
def processRows (L : Layout) (nm : JsMap Node) (rowData : List Row) : LoadState :=
  rowData.foldl (processRow L nm) { processedData := [], sequenceIndex := 0 }

/-- The value passed to `setDataset`. -/
def loadDataset (L : Layout) (rows : List Row) : List Tx :=
  (processRows L (nodesMap L (sortRows rows)) (sortRows rows)).processedData

/-- The value passed to `setNodesArray`. -/
def loadNodes (L : Layout) (rows : List Row) : List Node :=
  mapValues (nodesMap L (sortRows rows))

/-! ## Session state -/

/-- The refs of the component (lines 19-26). `none` stands for the label `'-'`. -/
structure Refs where
  pointer : Nat
  activeTx : List Tx
  balances : JsMap JsNum
  lastTouched : JsMap Int
  currentVol : JsNum
  currentBlock : Option JsNum
  currentBlockDiff : JsNum
  currentTs : Option Int
deriving DecidableEq, Repr

/-- The initial values of the refs. -/
def Refs.init : Refs :=
  { pointer := 0, activeTx := [], balances := [], lastTouched := [],
    currentVol := JsNum.num 0, currentBlock := none, currentBlockDiff := JsNum.num 0,
    currentTs := none }

/-- The refs together with the two pieces of React state the session uses. -/
structure App where
  refs : Refs
  elapsed : Int
  isPlaying : Bool
deriving DecidableEq, Repr

/-- The state of a freshly mounted component. -/
def App.init : App := { refs := Refs.init, elapsed := 0, isPlaying := false }

/-- The handler `handleRestart` (lines 126-137). -/
def handleRestart (_a : App) : App :=
  { refs :=
      { pointer := 0, activeTx := [], balances := [], lastTouched := [],
        currentVol := JsNum.num 0, currentBlock := none, currentBlockDiff := JsNum.num 0,
        currentTs := none },
    elapsed := 0,
    isPlaying := true }

/-! ## Replay pass (lines 139-198) -/

/-- The body of the admission loop (lines 147-158). -/
def admitOne (r : Refs) (tx : Tx) : Refs :=
  let b1 := mapSet r.balances tx.from_ (jsSub (getJsOrZero (mapGet r.balances tx.from_)) tx.value)
  let b2 := mapSet b1 tx.to_ (jsAdd (getJsOrZero (mapGet b1 tx.to_)) tx.value)
  { r with
    activeTx := r.activeTx ++ [tx],
    balances := b2,
    currentVol := jsAdd r.currentVol tx.value,
    currentBlock := some tx.blocknumber,
    currentBlockDiff := tx.blockDiff,
    currentTs := some tx.timestamp,
    pointer := r.pointer + 1 }

/-- The admission loop (line 146) over the records from the cursor on: the cursor moves by
one per iteration, so the loop reads the remaining records in order and stops at the first
one whose `normalizedTime` is above `elapsed`, or at the end. -/
def admitLoop (elapsed : Int) : List Tx → Refs → Refs
  | [], r => r
  | tx :: rest, r =>
    if tx.normalizedTime ≤ elapsed then admitLoop elapsed rest (admitOne r tx) else r

/-- The admission loop started at the cursor. -/
def admitFrom (dataset : List Tx) (elapsed : Int) (r : Refs) : Refs :=
  admitLoop elapsed (dataset.drop r.pointer) r

/-- The body of the windowing loop (lines 164-169) on the pair
`(currentlyActiveNodes, lastTouched)`. -/
def stamp (elapsed : Int) (acc : List Addr × JsMap Int) (tx : Tx) : List Addr × JsMap Int :=
  if elapsed ≤ tx.endTime then
    (setAdd (setAdd acc.1 tx.from_) tx.to_,
     mapSet (mapSet acc.2 tx.from_ elapsed) tx.to_ elapsed)
  else acc

/-- The windowing loop (lines 161-170). -/
def window (elapsed : Int) (activeLinks : List Tx) (lastTouched : JsMap Int) :
    List Addr × JsMap Int :=
  activeLinks.foldl (stamp elapsed) ([], lastTouched)

/-- A node object after the assignments of lines 181-183. -/
structure GraphNode where
  id : Addr
  x : Int
  y : Int
  balance : JsNum
  isPulse : Bool
  lastActive : Int
deriving DecidableEq, Repr

/-- The assignments of lines 177-183 for one node. -/
def attach (balances : JsMap JsNum) (currentlyActiveNodes : List Addr) (lastTouched : JsMap Int)
    (node : Node) : GraphNode :=
  { id := node.id, x := node.x, y := node.y,
    balance := getJsOrZero (mapGet balances node.id),
    isPulse := decide (node.id ∈ currentlyActiveNodes),
    lastActive := getOrZero (mapGet lastTouched node.id) }

/-- The object returned by the `useMemo` callback; `nodes` and `links` are the two arrays
of `graphData`. -/
structure Snapshot where
  nodes : List GraphNode
  links : List Tx
  totalVolume : JsNum
  activeCount : Nat
  currentBlock : Option JsNum
  currentBlockDiff : JsNum
  currentTimestamp : Option Int
deriving DecidableEq, Repr

/-- The outcome of one pass: the refs after it, the node objects the loop of
lines 176-188 wrote to (none in the early return of line 140), and the returned object. -/
structure Pass where
  refs : Refs
  annotated : List GraphNode
  result : Snapshot
deriving DecidableEq, Repr

/-- The `useMemo` callback (lines 139-198) run at `elapsed`. -/
def replay (dataset : List Tx) (nodesArray : List Node) (r : Refs) (elapsed : Int) : Pass :=
  if dataset.length = 0 then
    { refs := r,
      annotated := [],
      result := { nodes := [], links := [], totalVolume := JsNum.num 0, activeCount := 0,
                  currentBlock := none, currentBlockDiff := JsNum.num 0,
                  currentTimestamp := none } }
  else
    let r1 := admitFrom dataset elapsed r
    let w := window elapsed r1.activeTx r1.lastTouched
    let r2 := { r1 with lastTouched := w.2 }
    let annotated := nodesArray.map (attach r2.balances w.1 r2.lastTouched)
    { refs := r2,
      annotated := annotated,
      result :=
        { nodes := annotated.filter (fun node => decide (node.lastActive > 0)),
          links := r2.activeTx,
          totalVolume := r2.currentVol,
          activeCount := w.1.length,
          currentBlock := r2.currentBlock,
          currentBlockDiff := r2.currentBlockDiff,
          currentTimestamp := r2.currentTs } }

/-- The refs after a sequence of passes at the given elapsed values. -/
def passes (dataset : List Tx) (nodesArray : List Node) (r : Refs) (es : List Int) : Refs :=
  es.foldl (fun r e => (replay dataset nodesArray r e).refs) r

/-- What can happen to a session: the clock driver sets a new elapsed value (which
triggers a pass), the restart button, the play/stop button. -/
inductive Event where
  | tick (elapsed : Int)
  | restart
  | toggle
deriving DecidableEq, Repr

/-- The effect of one event on the session. -/
def step (dataset : List Tx) (nodesArray : List Node) (a : App) : Event → App
  | Event.tick e => { a with refs := (replay dataset nodesArray a.refs e).refs, elapsed := e }
  | Event.restart => handleRestart a
  | Event.toggle => { a with isPlaying := !a.isPlaying }

/-- The session reached from `a` by a sequence of events. -/
def run (dataset : List Tx) (nodesArray : List Node) (a : App) (evs : List Event) : App :=
  evs.foldl (step dataset nodesArray) a

/-! ## Vocabulary of the statements and invariants -/

/-- The row with its `value` coerced as the loader does (`Number(tx.value) || 0`). -/
def coerceRow (tx : Row) : Row := { tx with value := jsOrZero (toNumber tx.value) }

/-- Both endpoints present and different: the rows the loader keeps. -/
def validRow (tx : Row) : Bool :=
  truthy tx.from_ && truthy tx.to_ && decide (tx.from_ ≠ tx.to_)

/-- Every entry of a node map has a truthy key and holds the node with that id. -/
def NodesOk (m : JsMap Node) : Prop :=
  ∀ a n, mapGet m a = some n → truthy a = true ∧ n.id = a

/-- The skip test of line 76, as a boolean: the row is kept. -/
def keeps (nm : JsMap Node) (tx : Row) : Bool :=
  match mapGet nm tx.from_, mapGet nm tx.to_ with
  | some sourceObj, some targetObj => decide (sourceObj ≠ targetObj)
  | _, _ => false

/-- What the second loop maintains: the counter is the number of records pushed, the
`k`-th record carries `k * TX_INTERVAL`, and the block delta of the first record is
computed against its own block number. -/
def LoadInv (st : LoadState) : Prop :=
  st.sequenceIndex = (st.processedData.length : Int) ∧
  (∀ (k : Nat) (t : Tx), st.processedData[k]? = some t →
    t.normalizedTime = (k : Int) * TX_INTERVAL) ∧
  (∀ t : Tx, st.processedData.head? = some t →
    t.blockDiff = max0 (jsSub (toNumber t.blocknumber) (toNumber t.blocknumber)))

/-- The admission test of line 146 for one record. -/
def due (elapsed : Int) (tx : Tx) : Bool := decide (tx.normalizedTime ≤ elapsed)

/-- The liveness test of line 164 for one record. -/
def live (elapsed : Int) (tx : Tx) : Bool := decide (elapsed ≤ tx.endTime)

/-- The sum of a list of numbers accumulated from 0, left to right, in double arithmetic:
what `l.reduce((s, v) => s + v, 0)` computes. -/
def jsSum (l : List JsNum) : JsNum := l.foldl jsAdd (JsNum.num 0)

/-- The accumulated sum of `value` over a list of records. -/
def volume (l : List Tx) : JsNum := jsSum (l.map Tx.value)

/-- The effect of one record on the stored balance of `a`: a debit if `a` sends, then a
credit if `a` receives, each applied to `stored || 0`. -/
def balanceStep (a : Addr) (b : Option JsNum) (tx : Tx) : Option JsNum :=
  let b1 := if tx.from_ = a then some (jsSub (getJsOrZero b) tx.value) else b
  if tx.to_ = a then some (jsAdd (getJsOrZero b1) tx.value) else b1

/-- The stored balance of `a` after the records of `l`, taken in order: the running signed
sum in double arithmetic (`none` when no record names `a`). -/
def runBalance (a : Addr) (l : List Tx) : Option JsNum := l.foldl (balanceStep a) none

/-- The integer value of a finite number (0 for the others). -/
def intValue : JsNum → Int
  | JsNum.num n => n
  | _ => 0

/-- The number is finite. -/
def isFinite : JsNum → Bool
  | JsNum.num _ => true
  | _ => false

/-- The sum of the absolute values of `value` over a list of records. -/
def absTotal (l : List Tx) : Nat := (l.map (fun t => (intValue t.value).natAbs)).sum

/-- The exact sum of `value` over the records received by `a`. -/
def credit (a : Addr) (l : List Tx) : Int :=
  ((l.filter (fun tx => decide (tx.to_ = a))).map (fun t => intValue t.value)).sum

/-- The exact sum of `value` over the records sent by `a`. -/
def debit (a : Addr) (l : List Tx) : Int :=
  ((l.filter (fun tx => decide (tx.from_ = a))).map (fun t => intValue t.value)).sum

/-- The records a pass at `e` admits from cursor `r.pointer`. -/
def newly (dataset : List Tx) (e : Int) (r : Refs) : List Tx :=
  (dataset.drop r.pointer).takeWhile (due e)

/-- The refs agree with the dataset: the admitted records are the first `pointer`
records, and the volume and the balances are their accumulated sums. -/
def Synced (dataset : List Tx) (r : Refs) : Prop :=
  r.activeTx = dataset.take r.pointer ∧
  r.pointer ≤ dataset.length ∧
  r.currentVol = volume r.activeTx ∧
  ∀ a, mapGet r.balances a = runBalance a r.activeTx

/-- The set `currentlyActiveNodes` after the windowing loop, started from `s`. -/
def activeSet (e : Int) (l : List Tx) (s : List Addr) : List Addr :=
  l.foldl (fun s tx => if live e tx then setAdd (setAdd s tx.from_) tx.to_ else s) s

/-- The map `lastTouched` after the windowing loop, started from `m`. -/
def stampAll (e : Int) (l : List Tx) (m : JsMap Int) : JsMap Int :=
  l.foldl (fun m tx => if live e tx then mapSet (mapSet m tx.from_ e) tx.to_ e else m) m

/-- Some live record of `l` has `a` as an endpoint. -/
def touches (e : Int) (l : List Tx) (a : Addr) : Bool :=
  l.any (fun tx => live e tx && (decide (tx.from_ = a) || decide (tx.to_ = a)))

/-- Every admitted record was due at `e`. -/
def Bounded (e : Int) (r : Refs) : Prop := ∀ tx ∈ r.activeTx, tx.normalizedTime ≤ e

/-- Every key of `lastTouched` is an endpoint of a record of the dataset. -/
def KeysKnown (dataset : List Tx) (r : Refs) : Prop :=
  ∀ a v, mapGet r.lastTouched a = some v → ∃ tx ∈ dataset, tx.from_ = a ∨ tx.to_ = a

/-- The keys of a node map are distinct and every entry holds the node with that id. -/
def KeysOk (m : JsMap Node) : Prop :=
  (m.map Prod.fst).Nodup ∧ ∀ p ∈ m, p.2.id = p.1

/-! ## Sessions over a loaded table -/

/-- The refs after passes at the elapsed values `es`, from the initial state, over the
table `rows`. -/
def sessionAt (L : Layout) (rows : List Row) (es : List Int) : Refs :=
  passes (loadDataset L rows) (loadNodes L rows) Refs.init es

/-- The pass at `e` that follows passes at `es`, from the initial state, over `rows`. -/
def passAt (L : Layout) (rows : List Row) (es : List Int) (e : Int) : Pass :=
  replay (loadDataset L rows) (loadNodes L rows) (sessionAt L rows es) e

/-- The session reached by the events `evs` from a fresh mount, over `rows`. -/
def appAt (L : Layout) (rows : List Row) (evs : List Event) : App :=
  run (loadDataset L rows) (loadNodes L rows) App.init evs

/-! ## A concrete table -/

/-- A layout placing every node at the origin, with the taxicab distance. -/
def flatLayout : Layout :=
  { x := fun _ => 0, y := fun _ => 0, hypot := fun a b => a.natAbs + b.natAbs }

/-- A two-transfer table preceded by a self-transfer of a third address. -/
def sampleRows : List Row :=
  [ { from_ := some "X", to_ := some "X", value := JsNum.num 7,
      blocknumber := JsNum.num 90, timestamp := 1 },
    { from_ := some "B", to_ := some "C", value := JsNum.num 5,
      blocknumber := JsNum.num 103, timestamp := 9 },
    { from_ := some "A", to_ := some "B", value := JsNum.num 10,
      blocknumber := JsNum.num 100, timestamp := 4 } ]

/-- Two transfers into `B`: 2^53 from `A`, then 1 from `C`. -/
def bigRows : List Row :=
  [ { from_ := some "A", to_ := some "B", value := JsNum.num 9007199254740992,
      blocknumber := JsNum.num 100, timestamp := 1 },
    { from_ := some "C", to_ := some "B", value := JsNum.num 1,
      blocknumber := JsNum.num 101, timestamp := 2 } ]

/-- `B` receives 2^53, sends 2^53, then receives 1. -/
def swingRows : List Row :=
  [ { from_ := some "P", to_ := some "B", value := JsNum.num 9007199254740992,
      blocknumber := JsNum.num 100, timestamp := 1 },
    { from_ := some "B", to_ := some "Q", value := JsNum.num 9007199254740992,
      blocknumber := JsNum.num 101, timestamp := 2 },
    { from_ := some "R", to_ := some "B", value := JsNum.num 1,
      blocknumber := JsNum.num 102, timestamp := 3 } ]

/-- One transfer whose `blocknumber` cell is missing. -/
def noBlockRows : List Row :=
  [ { from_ := some "A", to_ := some "B", value := JsNum.num 10,
      blocknumber := JsNum.nan, timestamp := 4 } ]

/-- The two records of the example: `A -> B` of 10, then `B -> C` of 5. -/
def pairRows : List Row :=
  [ { from_ := some "A", to_ := some "B", value := JsNum.num 10,
      blocknumber := JsNum.num 100, timestamp := 4 },
    { from_ := some "B", to_ := some "C", value := JsNum.num 5,
      blocknumber := JsNum.num 103, timestamp := 9 } ]

/-! ## Lemmas on maps -/

theorem numOrZero_eq (v : Int) : numOrZero v = v := by
  unfold numOrZero
  split
  · rename_i h; exact h.symm
  · rfl

theorem getOrZero_none : getOrZero none = 0 := rfl

theorem getOrZero_some (v : Int) : getOrZero (some v) = v := numOrZero_eq v

theorem mapGet_mapSet {α : Type} (m : JsMap α) (a b : Addr) (v : α) :
    mapGet (mapSet m a v) b = if a = b then some v else mapGet m b := by
  induction m with
  | nil => simp [mapSet, mapGet]
  | cons p m ih =>
    obtain ⟨k, w⟩ := p
    by_cases hk : k = a
    · subst hk
      by_cases hb : k = b <;> simp [mapSet, mapGet, hb]
    · by_cases hb : k = b
      · subst hb
        simp [mapSet, mapGet, hk, Ne.symm hk]
      · simp [mapSet, mapGet, hk, hb, ih]

theorem mapSet_same {α : Type} (m : JsMap α) (a : Addr) (v : α) (h : mapGet m a = some v) :
    mapSet m a v = m := by
  induction m with
  | nil => simp [mapGet] at h
  | cons p m ih =>
    obtain ⟨k, w⟩ := p
    by_cases hk : k = a
    · simp [mapGet, hk] at h
      simp [mapSet, hk, h]
    · simp [mapGet, hk] at h
      simp [mapSet, hk, ih h]

theorem mapGet_mem_values {α : Type} (m : JsMap α) (a : Addr) (v : α)
    (h : mapGet m a = some v) : v ∈ mapValues m := by
  induction m with
  | nil => simp [mapGet] at h
  | cons p m ih =>
    obtain ⟨k, w⟩ := p
    by_cases hk : k = a
    · simp [mapGet, hk] at h
      simp [mapValues, h]
    · simp [mapGet, hk] at h
      have := ih h
      simp [mapValues] at this ⊢
      exact Or.inr this

theorem mem_values_mapGet {α : Type} (m : JsMap α) (v : α) (h : v ∈ mapValues m) :
    ∃ a, (a, v) ∈ m := by
  simp [mapValues] at h
  exact h

/-! ## Lemmas on the node map -/

theorem mapGet_addNode (L : Layout) (m : JsMap Node) (a b : Addr) (n : Node)
    (h : mapGet (addNode L m a) b = some n) :
    mapGet m b = some n ∨ (truthy a = true ∧ a = b ∧ n.id = a) := by
  unfold addNode at h
  split at h
  · rename_i hc
    rw [mapGet_mapSet] at h
    split at h
    · rename_i hab
      simp at hc h
      right
      exact ⟨hc.1, hab, by rw [← h]⟩
    · exact Or.inl h
  · exact Or.inl h

theorem nodesOk_addNode (L : Layout) (m : JsMap Node) (a : Addr) (h : NodesOk m) :
    NodesOk (addNode L m a) := by
  intro b n hb
  rcases mapGet_addNode L m a b n hb with h1 | ⟨h1, h2, h3⟩
  · exact h b n h1
  · subst h2
    exact ⟨h1, h3⟩

theorem mapHas_addNode_mono (L : Layout) (m : JsMap Node) (a b : Addr)
    (h : mapHas m b = true) : mapHas (addNode L m a) b = true := by
  unfold addNode
  split
  · rename_i hc
    simp only [mapHas] at h ⊢
    rw [mapGet_mapSet]
    split
    · rfl
    · exact h
  · exact h

theorem mapHas_addNode_self (L : Layout) (m : JsMap Node) (a : Addr)
    (h : truthy a = true) : mapHas (addNode L m a) a = true := by
  cases hg : mapGet m a with
  | none => simp [addNode, h, mapHas, hg, mapGet_mapSet]
  | some n => simp [addNode, h, mapHas, hg]

theorem nodesMap_fold_ok (L : Layout) (rows : List Row) (m : JsMap Node) (h : NodesOk m) :
    NodesOk (rows.foldl (fun m tx => addNode L (addNode L m tx.from_) tx.to_) m) := by
  induction rows generalizing m with
  | nil => exact h
  | cons tx rows ih =>
    exact ih _ (nodesOk_addNode L _ _ (nodesOk_addNode L _ _ h))

theorem nodesMap_fold_mono (L : Layout) (rows : List Row) (m : JsMap Node) (b : Addr)
    (h : mapHas m b = true) :
    mapHas (rows.foldl (fun m tx => addNode L (addNode L m tx.from_) tx.to_) m) b = true := by
  induction rows generalizing m with
  | nil => exact h
  | cons tx rows ih =>
    exact ih _ (mapHas_addNode_mono L _ _ _ (mapHas_addNode_mono L _ _ _ h))

theorem nodesMap_fold_covers (L : Layout) (rows : List Row) (m : JsMap Node) (tx : Row)
    (htx : tx ∈ rows) :
    (truthy tx.from_ = true →
      mapHas (rows.foldl (fun m tx => addNode L (addNode L m tx.from_) tx.to_) m) tx.from_
        = true) ∧
    (truthy tx.to_ = true →
      mapHas (rows.foldl (fun m tx => addNode L (addNode L m tx.from_) tx.to_) m) tx.to_
        = true) := by
  induction rows generalizing m with
  | nil => simp at htx
  | cons r rows ih =>
    rcases List.mem_cons.1 htx with h | h
    · subst h
      constructor
      · intro ht
        exact nodesMap_fold_mono L rows _ _
          (mapHas_addNode_mono L _ _ _ (mapHas_addNode_self L m _ ht))
      · intro ht
        exact nodesMap_fold_mono L rows _ _ (mapHas_addNode_self L _ _ ht)
    · exact ih _ h

theorem nodesOk_nodesMap (L : Layout) (rows : List Row) : NodesOk (nodesMap L rows) :=
  nodesMap_fold_ok L rows [] (by intro a n h; simp [mapGet] at h)

theorem keeps_eq_validRow (L : Layout) (rows : List Row) (tx : Row) (htx : tx ∈ rows) :
    keeps (nodesMap L rows) tx = validRow tx := by
  have hok := nodesOk_nodesMap L rows
  have hcov := nodesMap_fold_covers L rows [] tx htx
  unfold keeps validRow
  cases hf : mapGet (nodesMap L rows) tx.from_ with
  | none =>
    have : truthy tx.from_ = false := by
      by_contra hne
      have := hcov.1 (by simpa using hne)
      simp [mapHas, nodesMap] at this
      simp [nodesMap] at hf
      simp [hf] at this
    simp [this]
  | some s =>
    cases ht : mapGet (nodesMap L rows) tx.to_ with
    | none =>
      have : truthy tx.to_ = false := by
        by_contra hne
        have := hcov.2 (by simpa using hne)
        simp [mapHas, nodesMap] at this
        simp [nodesMap] at ht
        simp [ht] at this
      simp [this]
    | some t =>
      obtain ⟨h1, h2⟩ := hok _ _ hf
      obtain ⟨h3, h4⟩ := hok _ _ ht
      simp only [h1, h3, Bool.true_and]
      by_cases hst : s = t
      · subst hst
        have : tx.from_ = tx.to_ := by rw [← h2, ← h4]
        simp [this]
      · have : tx.from_ ≠ tx.to_ := by
          intro heq
          rw [heq, ht] at hf
          exact hst (Option.some.inj hf).symm
        simp [hst, this]

/-! ## Lemmas on the loader -/

theorem processRow_skip (L : Layout) (nm : JsMap Node) (st : LoadState) (tx : Row)
    (h : keeps nm tx = false) : processRow L nm st tx = st := by
  unfold keeps at h
  unfold processRow
  split
  · rename_i s t hs ht
    simp only [hs, ht] at h
    have : s = t := by simpa using h
    simp [this]
  · rfl

theorem processRow_keep (L : Layout) (nm : JsMap Node) (st : LoadState) (tx : Row)
    (h : keeps nm tx = true) :
    ∃ t : Tx, processRow L nm st tx =
        { processedData := st.processedData ++ [t], sequenceIndex := st.sequenceIndex + 1 } ∧
      t.row = coerceRow tx ∧ t.normalizedTime = st.sequenceIndex * TX_INTERVAL ∧
      (st.processedData = [] →
        t.blockDiff = max0 (jsSub (toNumber t.blocknumber) (toNumber t.blocknumber))) ∧
      mapGet nm t.from_ = some t.sourceObj ∧ mapGet nm t.to_ = some t.targetObj := by
  unfold keeps at h
  unfold processRow
  split
  · rename_i s t hs ht
    simp only [hs, ht] at h
    have hne : ¬ s = t := by simpa using h
    simp only [hne, if_false]
    refine ⟨_, rfl, ?_, rfl, ?_, hs, ht⟩
    · simp [Tx.row, coerceRow]
    · intro he
      simp [he]
  · rename_i hno
    cases hs : mapGet nm tx.from_ with
    | none => simp [hs] at h
    | some s =>
      cases ht : mapGet nm tx.to_ with
      | none => simp [hs, ht] at h
      | some t => exact absurd ht (hno s t hs)

theorem loadInv_processRow (L : Layout) (nm : JsMap Node) (st : LoadState) (tx : Row)
    (h : LoadInv st) : LoadInv (processRow L nm st tx) := by
  cases hk : keeps nm tx with
  | false => rw [processRow_skip L nm st tx hk]; exact h
  | true =>
    obtain ⟨t, heq, -, hnt, hbd, -, -⟩ := processRow_keep L nm st tx hk
    rw [heq]
    obtain ⟨h1, h2, h3⟩ := h
    refine ⟨?_, ?_, ?_⟩
    · simp [h1]
    · intro k u hku
      simp only at hku
      by_cases hlt : k < st.processedData.length
      · rw [List.getElem?_append_left hlt] at hku
        exact h2 k u hku
      · have hge : st.processedData.length ≤ k := Nat.le_of_not_lt hlt
        rw [List.getElem?_append_right hge] at hku
        cases hd : k - st.processedData.length with
        | zero =>
          rw [hd] at hku
          simp at hku
          subst hku
          have : k = st.processedData.length := by omega
          rw [hnt, h1, this]
        | succ d =>
          rw [hd] at hku
          simp at hku
    · intro u hu
      simp only at hu
      cases hpd : st.processedData with
      | nil =>
        rw [hpd] at hu
        simp at hu
        subst hu
        exact hbd hpd
      | cons v rest =>
        rw [hpd] at hu
        simp at hu
        subst hu
        exact h3 v (by rw [hpd]; rfl)

theorem loadInv_fold (L : Layout) (nm : JsMap Node) (rows : List Row) (st : LoadState)
    (h : LoadInv st) : LoadInv (rows.foldl (processRow L nm) st) := by
  induction rows generalizing st with
  | nil => exact h
  | cons tx rows ih => exact ih _ (loadInv_processRow L nm st tx h)

theorem loadInv_processRows (L : Layout) (nm : JsMap Node) (rows : List Row) :
    LoadInv (processRows L nm rows) :=
  loadInv_fold L nm rows _ ⟨rfl, by intro k t h; simp at h, by intro t h; simp at h⟩

theorem rows_fold (L : Layout) (nm : JsMap Node) (rows : List Row) (st : LoadState) :
    (rows.foldl (processRow L nm) st).processedData.map Tx.row =
      st.processedData.map Tx.row ++ (rows.filter (keeps nm)).map coerceRow := by
  induction rows generalizing st with
  | nil => simp
  | cons tx rows ih =>
    rw [List.foldl_cons, ih]
    cases hk : keeps nm tx with
    | false => rw [processRow_skip L nm st tx hk]; simp [hk]
    | true =>
      obtain ⟨t, heq, hrow, -⟩ := processRow_keep L nm st tx hk
      rw [heq]
      simp [hk, hrow]

theorem lookups_fold (L : Layout) (nm : JsMap Node) (rows : List Row) (st : LoadState)
    (h : ∀ t ∈ st.processedData,
      mapGet nm t.from_ = some t.sourceObj ∧ mapGet nm t.to_ = some t.targetObj) :
    ∀ t ∈ (rows.foldl (processRow L nm) st).processedData,
      mapGet nm t.from_ = some t.sourceObj ∧ mapGet nm t.to_ = some t.targetObj := by
  induction rows generalizing st with
  | nil => exact h
  | cons tx rows ih =>
    rw [List.foldl_cons]
    apply ih
    cases hk : keeps nm tx with
    | false => rw [processRow_skip L nm st tx hk]; exact h
    | true =>
      obtain ⟨t, heq, -, -, -, hs, ht⟩ := processRow_keep L nm st tx hk
      rw [heq]
      intro u hu
      simp only [List.mem_append, List.mem_singleton] at hu
      rcases hu with hu | hu
      · exact h u hu
      · subst hu; exact ⟨hs, ht⟩

theorem loadDataset_rows (L : Layout) (rows : List Row) :
    (loadDataset L rows).map Tx.row = ((sortRows rows).filter validRow).map coerceRow := by
  unfold loadDataset processRows
  rw [rows_fold]
  simp only [List.map_nil, List.nil_append]
  congr 1
  apply List.filter_congr
  intro tx htx
  exact keeps_eq_validRow L (sortRows rows) tx htx

theorem loadDataset_lookups (L : Layout) (rows : List Row) :
    ∀ t ∈ loadDataset L rows,
      mapGet (nodesMap L (sortRows rows)) t.from_ = some t.sourceObj ∧
      mapGet (nodesMap L (sortRows rows)) t.to_ = some t.targetObj :=
  lookups_fold L _ (sortRows rows) _ (by intro t ht; simp at ht)

theorem loadDataset_valid (L : Layout) (rows : List Row) (t : Tx)
    (ht : t ∈ loadDataset L rows) : validRow t.row = true := by
  have hmem : t.row ∈ (loadDataset L rows).map Tx.row := List.mem_map_of_mem _ ht
  rw [loadDataset_rows] at hmem
  obtain ⟨r, hr, hrt⟩ := List.mem_map.1 hmem
  have hv := (List.mem_filter.1 hr).2
  rw [← hrt]
  exact hv

theorem loadDataset_time (L : Layout) (rows : List Row) (k : Nat) (t : Tx)
    (h : (loadDataset L rows)[k]? = some t) : t.normalizedTime = (k : Int) * TX_INTERVAL :=
  (loadInv_processRows L _ (sortRows rows)).2.1 k t h

theorem loadDataset_increasing (L : Layout) (rows : List Row) :
    (loadDataset L rows).Pairwise (fun a b => a.normalizedTime < b.normalizedTime) := by
  rw [List.pairwise_iff_getElem]
  intro i j hi hj hij
  have h1 := loadDataset_time L rows i _ (List.getElem?_eq_getElem hi)
  have h2 := loadDataset_time L rows j _ (List.getElem?_eq_getElem hj)
  rw [h1, h2]
  have : (i : Int) < j := by exact_mod_cast hij
  simp only [TX_INTERVAL]
  omega

theorem sortRows_sorted (rows : List Row) :
    (sortRows rows).Pairwise (fun a b => a.timestamp ≤ b.timestamp) := by
  have : IsTotal Row (fun a b => a.timestamp ≤ b.timestamp) := ⟨fun a b => le_total _ _⟩
  have : IsTrans Row (fun a b => a.timestamp ≤ b.timestamp) := ⟨fun a b c => le_trans⟩
  exact List.sorted_insertionSort (fun a b : Row => a.timestamp ≤ b.timestamp) rows

theorem sortRows_perm (rows : List Row) : (sortRows rows).Perm rows :=
  List.perm_insertionSort _ rows

/-! ## Lemmas on the admission loop -/

theorem admitLoop_eq_foldl (e : Int) (l : List Tx) (r : Refs) :
    admitLoop e l r = (l.takeWhile (due e)).foldl admitOne r := by
  induction l generalizing r with
  | nil => rfl
  | cons tx rest ih =>
    by_cases h : tx.normalizedTime ≤ e
    · simp [admitLoop, List.takeWhile, due, h, ih]
    · simp [admitLoop, List.takeWhile, due, h]

theorem balance_admitOne (r : Refs) (tx : Tx) (a : Addr) :
    mapGet (admitOne r tx).balances a = balanceStep a (mapGet r.balances a) tx := by
  simp only [admitOne, mapGet_mapSet, balanceStep]
  by_cases h1 : tx.to_ = a <;> by_cases h2 : tx.from_ = a
  · have h3 : tx.from_ = tx.to_ := by rw [h1, h2]
    simp [h1, h2, h3]
  · have h3 : ¬ tx.from_ = tx.to_ := by rw [h1]; exact h2
    simp [h1, h2, h3]
  · simp [h1, h2]
  · simp [h1, h2]

theorem foldl_admitOne (l : List Tx) (r : Refs) :
    (l.foldl admitOne r).activeTx = r.activeTx ++ l ∧
    (l.foldl admitOne r).pointer = r.pointer + l.length ∧
    (l.foldl admitOne r).currentVol = (l.map Tx.value).foldl jsAdd r.currentVol ∧
    (l.foldl admitOne r).lastTouched = r.lastTouched ∧
    ∀ a, mapGet (l.foldl admitOne r).balances a =
      l.foldl (balanceStep a) (mapGet r.balances a) := by
  induction l generalizing r with
  | nil => simp
  | cons tx rest ih =>
    obtain ⟨h1, h2, h3, h4, h5⟩ := ih (admitOne r tx)
    simp only [List.foldl_cons, List.map_cons]
    refine ⟨?_, ?_, ?_, ?_, ?_⟩
    · rw [h1]; simp [admitOne]
    · rw [h2]; simp [admitOne]; omega
    · rw [h3]; simp [admitOne]
    · rw [h4]; simp [admitOne]
    · intro a
      rw [h5 a, balance_admitOne]

theorem admitFrom_eq (dataset : List Tx) (e : Int) (r : Refs) :
    admitFrom dataset e r = (newly dataset e r).foldl admitOne r := by
  simp [admitFrom, newly, admitLoop_eq_foldl]

theorem takeWhile_eq_filter_of_sorted (e : Int) (l : List Tx)
    (h : l.Pairwise (fun a b => a.normalizedTime < b.normalizedTime)) :
    l.takeWhile (due e) = l.filter (due e) := by
  induction l with
  | nil => rfl
  | cons tx rest ih =>
    rw [List.pairwise_cons] at h
    by_cases hd : due e tx = true
    · simp [List.takeWhile, List.filter, hd, ih h.2]
    · simp only [Bool.not_eq_true] at hd
      simp only [List.takeWhile, List.filter, hd]
      symm
      rw [List.filter_eq_nil_iff]
      intro b hb
      have := h.1 b hb
      simp only [due, decide_eq_false_iff_not, not_le] at hd
      simp only [due, decide_eq_true_eq, not_le]
      omega

theorem synced_init (dataset : List Tx) : Synced dataset Refs.init := by
  refine ⟨by simp [Refs.init], by simp [Refs.init], by simp [Refs.init, volume, jsSum], ?_⟩
  intro a
  simp [Refs.init, mapGet, runBalance]

theorem newly_length_le (dataset : List Tx) (e : Int) (r : Refs) :
    r.pointer + (newly dataset e r).length ≤ max r.pointer dataset.length := by
  have h1 : (newly dataset e r).length ≤ (dataset.drop r.pointer).length := by
    unfold newly
    exact (List.takeWhile_sublist _).length_le
  rw [List.length_drop] at h1
  omega

theorem take_add_newly (dataset : List Tx) (e : Int) (r : Refs) :
    dataset.take (r.pointer + (newly dataset e r).length) =
      dataset.take r.pointer ++ newly dataset e r := by
  have hpre : newly dataset e r <+: dataset.drop r.pointer := by
    unfold newly
    exact List.takeWhile_prefix _
  obtain ⟨t, ht⟩ := hpre
  have h2 : dataset = dataset.take r.pointer ++ (newly dataset e r ++ t) := by
    rw [ht, List.take_append_drop]
  by_cases hp : r.pointer ≤ dataset.length
  · have hl : (dataset.take r.pointer).length = r.pointer := by
      rw [List.length_take]; omega
    generalize newly dataset e r = n at ht h2
    have h3 : dataset.take (r.pointer + n.length) =
        (dataset.take r.pointer ++ n ++ t).take ((dataset.take r.pointer ++ n).length) := by
      rw [List.length_append, hl, List.append_assoc, ← h2]
    rw [h3, List.take_left]
  · have hp2 : dataset.length ≤ r.pointer := by omega
    have hd : dataset.drop r.pointer = [] := List.drop_eq_nil_of_le hp2
    have hn : newly dataset e r = [] := by simp [newly, hd]
    rw [hn]
    simp

theorem synced_admitFrom (dataset : List Tx) (e : Int) (r : Refs) (h : Synced dataset r) :
    Synced dataset (admitFrom dataset e r) := by
  obtain ⟨h1, h2, h3, h4⟩ := h
  rw [admitFrom_eq]
  obtain ⟨f1, f2, f3, -, f5⟩ := foldl_admitOne (newly dataset e r) r
  refine ⟨?_, ?_, ?_, ?_⟩
  · rw [f1, f2, take_add_newly, h1]
  · rw [f2]
    have := newly_length_le dataset e r
    omega
  · rw [f3, f1, h3]
    simp [volume, jsSum, List.foldl_append]
  · intro a
    rw [f5 a, f1, h4 a]
    simp [runBalance, List.foldl_append]

/-! ## Lemmas on the windowing loop -/

theorem touches_iff (e : Int) (l : List Tx) (a : Addr) :
    touches e l a = true ↔
      ∃ tx ∈ l, e ≤ tx.endTime ∧ (tx.from_ = a ∨ tx.to_ = a) := by
  simp [touches, live]

theorem foldl_stamp (e : Int) (l : List Tx) (s : List Addr) (m : JsMap Int) :
    l.foldl (stamp e) (s, m) = (activeSet e l s, stampAll e l m) := by
  induction l generalizing s m with
  | nil => rfl
  | cons tx rest ih =>
    have hs : stamp e (s, m) tx =
        (if live e tx then setAdd (setAdd s tx.from_) tx.to_ else s,
         if live e tx then mapSet (mapSet m tx.from_ e) tx.to_ e else m) := by
      unfold stamp live
      by_cases h : e ≤ tx.endTime <;> simp [h]
    rw [List.foldl_cons, hs, ih]
    rfl

theorem window_eq (e : Int) (l : List Tx) (m : JsMap Int) :
    window e l m = (activeSet e l [], stampAll e l m) :=
  foldl_stamp e l [] m

theorem mem_setAdd (s : List Addr) (a b : Addr) : b ∈ setAdd s a ↔ b ∈ s ∨ b = a := by
  unfold setAdd
  split
  · rename_i h
    constructor
    · exact Or.inl
    · rintro (h1 | h1)
      · exact h1
      · rw [h1]; exact h
  · simp

theorem nodup_setAdd (s : List Addr) (a : Addr) (h : s.Nodup) : (setAdd s a).Nodup := by
  unfold setAdd
  split
  · exact h
  · rename_i hn
    rw [List.nodup_append]
    refine ⟨h, List.nodup_singleton a, ?_⟩
    intro x hx hx2
    simp only [List.mem_singleton] at hx2
    subst hx2
    exact hn hx

theorem mem_activeSet (e : Int) (l : List Tx) (s : List Addr) (a : Addr) :
    a ∈ activeSet e l s ↔ a ∈ s ∨ touches e l a = true := by
  induction l generalizing s with
  | nil => simp [activeSet, touches]
  | cons tx rest ih =>
    have hstep : activeSet e (tx :: rest) s =
        activeSet e rest (if live e tx then setAdd (setAdd s tx.from_) tx.to_ else s) := rfl
    rw [hstep, ih]
    by_cases h : live e tx = true
    · simp only [h, if_true, mem_setAdd, touches, List.any_cons, Bool.true_and,
        Bool.or_eq_true, decide_eq_true_eq]
      constructor
      · rintro ((((h1 | h1) | h1)) | h1)
        · exact Or.inl h1
        · exact Or.inr (Or.inl (Or.inl h1.symm))
        · exact Or.inr (Or.inl (Or.inr h1.symm))
        · exact Or.inr (Or.inr h1)
      · rintro (h1 | (h1 | h1) | h1)
        · exact Or.inl (Or.inl (Or.inl h1))
        · exact Or.inl (Or.inl (Or.inr h1.symm))
        · exact Or.inl (Or.inr h1.symm)
        · exact Or.inr h1
    · simp only [Bool.not_eq_true] at h
      simp [h, touches]

theorem nodup_activeSet (e : Int) (l : List Tx) (s : List Addr) (h : s.Nodup) :
    (activeSet e l s).Nodup := by
  induction l generalizing s with
  | nil => exact h
  | cons tx rest ih =>
    have hstep : activeSet e (tx :: rest) s =
        activeSet e rest (if live e tx then setAdd (setAdd s tx.from_) tx.to_ else s) := rfl
    rw [hstep]
    apply ih
    split
    · exact nodup_setAdd _ _ (nodup_setAdd _ _ h)
    · exact h

theorem mapGet_stampAll (e : Int) (l : List Tx) (m : JsMap Int) (a : Addr) :
    mapGet (stampAll e l m) a = if touches e l a = true then some e else mapGet m a := by
  induction l generalizing m with
  | nil => simp [stampAll, touches]
  | cons tx rest ih =>
    have hstep : stampAll e (tx :: rest) m =
        stampAll e rest (if live e tx then mapSet (mapSet m tx.from_ e) tx.to_ e else m) := rfl
    rw [hstep, ih]
    by_cases hr : touches e rest a = true
    · have : touches e (tx :: rest) a = true := by
        simp only [touches, List.any_cons, Bool.or_eq_true] at hr ⊢
        exact Or.inr hr
      simp [hr, this]
    · simp only [hr, if_false]
      by_cases h : live e tx = true
      · simp only [h, if_true, mapGet_mapSet]
        by_cases h1 : tx.to_ = a
        · have : touches e (tx :: rest) a = true := by
            simp [touches, h, h1]
          simp [h1, this]
        · by_cases h2 : tx.from_ = a
          · have : touches e (tx :: rest) a = true := by
              simp [touches, h, h2]
            simp [h1, h2, this]
          · have : ¬ touches e (tx :: rest) a = true := by
              simp only [touches, List.any_cons, Bool.or_eq_true] at hr ⊢
              simp [h1, h2]
              simpa [touches] using hr
            simp [h1, h2, this]
      · have : ¬ touches e (tx :: rest) a = true := by
          simp only [Bool.not_eq_true] at h
          simp only [touches, List.any_cons, Bool.or_eq_true] at hr ⊢
          simp [h]
          simpa [touches] using hr
        simp [h, this]

theorem stampAll_fixed (e : Int) (l : List Tx) (m : JsMap Int)
    (h : ∀ tx ∈ l, live e tx = true →
      mapGet m tx.from_ = some e ∧ mapGet m tx.to_ = some e) :
    stampAll e l m = m := by
  induction l with
  | nil => rfl
  | cons tx rest ih =>
    have hstep : stampAll e (tx :: rest) m =
        stampAll e rest (if live e tx then mapSet (mapSet m tx.from_ e) tx.to_ e else m) := rfl
    rw [hstep]
    have hm : (if live e tx then mapSet (mapSet m tx.from_ e) tx.to_ e else m) = m := by
      split
      · rename_i hl
        obtain ⟨h1, h2⟩ := h tx (List.mem_cons_self _ _) hl
        rw [mapSet_same m _ _ h1, mapSet_same m _ _ h2]
      · rfl
    rw [hm]
    exact ih (fun t ht => h t (List.mem_cons_of_mem _ ht))

theorem stampAll_idem (e : Int) (l : List Tx) (m : JsMap Int) :
    stampAll e l (stampAll e l m) = stampAll e l m := by
  apply stampAll_fixed
  intro tx htx hl
  have hf : touches e l tx.from_ = true := by
    simp only [touches, List.any_eq_true]
    exact ⟨tx, htx, by simp [hl]⟩
  have ht : touches e l tx.to_ = true := by
    simp only [touches, List.any_eq_true]
    exact ⟨tx, htx, by simp [hl]⟩
  rw [mapGet_stampAll, mapGet_stampAll]
  simp [hf, ht]

/-! ## Lemmas on a pass -/

theorem admitFrom_nil (e : Int) (r : Refs) : admitFrom [] e r = r := by
  simp [admitFrom, admitLoop]

theorem replay_nil (nodesArray : List Node) (r : Refs) (e : Int) :
    replay [] nodesArray r e =
      { refs := r, annotated := [],
        result := { nodes := [], links := [], totalVolume := JsNum.num 0, activeCount := 0,
                    currentBlock := none, currentBlockDiff := JsNum.num 0,
                    currentTimestamp := none } } := by
  simp [replay]

theorem replay_ne (dataset : List Tx) (nodesArray : List Node) (r : Refs) (e : Int)
    (h : dataset ≠ []) :
    replay dataset nodesArray r e =
      { refs := { admitFrom dataset e r with
          lastTouched := stampAll e (admitFrom dataset e r).activeTx (admitFrom dataset e r).lastTouched },
        annotated := nodesArray.map (attach (admitFrom dataset e r).balances
          (activeSet e (admitFrom dataset e r).activeTx [])
          (stampAll e (admitFrom dataset e r).activeTx (admitFrom dataset e r).lastTouched)),
        result :=
          { nodes := (nodesArray.map (attach (admitFrom dataset e r).balances
              (activeSet e (admitFrom dataset e r).activeTx [])
              (stampAll e (admitFrom dataset e r).activeTx (admitFrom dataset e r).lastTouched))).filter
                (fun node => decide (node.lastActive > 0)),
            links := (admitFrom dataset e r).activeTx,
            totalVolume := (admitFrom dataset e r).currentVol,
            activeCount := (activeSet e (admitFrom dataset e r).activeTx []).length,
            currentBlock := (admitFrom dataset e r).currentBlock,
            currentBlockDiff := (admitFrom dataset e r).currentBlockDiff,
            currentTimestamp := (admitFrom dataset e r).currentTs } } := by
  have hl : ¬ dataset.length = 0 := by
    intro h0
    exact h (List.length_eq_zero.1 h0)
  simp only [replay, hl, if_false, window_eq]

theorem replay_refs (dataset : List Tx) (nodesArray : List Node) (r : Refs) (e : Int) :
    (replay dataset nodesArray r e).refs =
      { admitFrom dataset e r with
        lastTouched := (replay dataset nodesArray r e).refs.lastTouched } := by
  by_cases h : dataset = []
  · subst h
    simp [replay_nil, admitFrom_nil]
  · rw [replay_ne dataset nodesArray r e h]

theorem admitFrom_lastTouched (dataset : List Tx) (e : Int) (r : Refs) :
    (admitFrom dataset e r).lastTouched = r.lastTouched := by
  rw [admitFrom_eq]
  exact (foldl_admitOne _ r).2.2.2.1

theorem admitFrom_activeTx (dataset : List Tx) (e : Int) (r : Refs) :
    (admitFrom dataset e r).activeTx = r.activeTx ++ newly dataset e r := by
  rw [admitFrom_eq]
  exact (foldl_admitOne _ r).1

theorem admitFrom_pointer (dataset : List Tx) (e : Int) (r : Refs) :
    (admitFrom dataset e r).pointer = r.pointer + (newly dataset e r).length := by
  rw [admitFrom_eq]
  exact (foldl_admitOne _ r).2.1

theorem synced_replay (dataset : List Tx) (nodesArray : List Node) (r : Refs) (e : Int)
    (h : Synced dataset r) : Synced dataset (replay dataset nodesArray r e).refs := by
  have := synced_admitFrom dataset e r h
  rw [replay_refs]
  exact this

theorem synced_passes (dataset : List Tx) (nodesArray : List Node) (es : List Int) (r : Refs)
    (h : Synced dataset r) : Synced dataset (passes dataset nodesArray r es) := by
  induction es generalizing r with
  | nil => exact h
  | cons e es ih => exact ih _ (synced_replay dataset nodesArray r e h)

theorem synced_run (dataset : List Tx) (nodesArray : List Node) (evs : List Event) (a : App)
    (h : Synced dataset a.refs) : Synced dataset (run dataset nodesArray a evs).refs := by
  induction evs generalizing a with
  | nil => exact h
  | cons ev evs ih =>
    apply ih
    cases ev with
    | tick e => exact synced_replay dataset nodesArray a.refs e h
    | restart => exact synced_init dataset
    | toggle => exact h

theorem drop_takeWhile_length (p : Tx → Bool) (l : List Tx) :
    l.drop (l.takeWhile p).length = l.dropWhile p := by
  induction l with
  | nil => rfl
  | cons x xs ih => by_cases h : p x = true <;> simp [List.takeWhile, List.dropWhile, h, ih]

/-- Whenever the cursor has stopped, the record under it (if any) is not yet due. -/
theorem newly_after_admitFrom (dataset : List Tx) (e : Int) (r : Refs) :
    newly dataset e (admitFrom dataset e r) = [] := by
  unfold newly
  rw [admitFrom_pointer]
  have hd : dataset.drop (r.pointer + (newly dataset e r).length) =
      (dataset.drop r.pointer).dropWhile (due e) := by
    rw [← List.drop_drop]
    unfold newly
    exact drop_takeWhile_length (due e) _
  rw [hd]
  cases hdw : (dataset.drop r.pointer).dropWhile (due e) with
  | nil => rfl
  | cons x rest =>
    have hx : ¬ due e x = true := by
      have := List.head_dropWhile_not (due e) (dataset.drop r.pointer)
        (by rw [hdw]; exact List.cons_ne_nil _ _)
      simpa [hdw] using this
    simp [List.takeWhile, hx]

theorem admitFrom_idem (dataset : List Tx) (e : Int) (r : Refs) :
    admitFrom dataset e (admitFrom dataset e r) = admitFrom dataset e r := by
  conv_lhs => rw [admitFrom_eq]
  rw [newly_after_admitFrom]
  rfl

theorem admitFrom_frame (dataset : List Tx) (e : Int) (r : Refs) (m : JsMap Int) :
    admitFrom dataset e { r with lastTouched := m } = { admitFrom dataset e r with lastTouched := m } := by
  have key : ∀ (l : List Tx) (r : Refs),
      l.foldl admitOne { r with lastTouched := m } =
        { l.foldl admitOne r with lastTouched := m } := by
    intro l
    induction l with
    | nil => intro r; rfl
    | cons tx rest ih =>
      intro r
      simp only [List.foldl_cons]
      have : admitOne { r with lastTouched := m } tx =
          { admitOne r tx with lastTouched := m } := rfl
      rw [this, ih]
  rw [admitFrom_eq, admitFrom_eq]
  have hn : newly dataset e { r with lastTouched := m } = newly dataset e r := rfl
  rw [hn, key]

theorem replay_idem (dataset : List Tx) (nodesArray : List Node) (r : Refs) (e : Int) :
    replay dataset nodesArray (replay dataset nodesArray r e).refs e =
      replay dataset nodesArray r e := by
  by_cases h : dataset = []
  · subst h
    simp [replay_nil]
  · have h1 : (replay dataset nodesArray r e).refs =
        { admitFrom dataset e r with
          lastTouched :=
            stampAll e (admitFrom dataset e r).activeTx (admitFrom dataset e r).lastTouched } := by
      rw [replay_ne dataset nodesArray r e h]
    rw [h1]
    rw [replay_ne dataset nodesArray _ e h, replay_ne dataset nodesArray r e h]
    rw [admitFrom_frame, admitFrom_idem]
    simp only [stampAll_idem]

/-! ## Lemmas on sequences of passes -/

theorem newly_due (dataset : List Tx) (e : Int) (r : Refs) (tx : Tx)
    (h : tx ∈ newly dataset e r) : tx.normalizedTime ≤ e := by
  unfold newly at h
  have := (List.mem_takeWhile_imp h)
  simpa [due] using this

theorem bounded_replay (dataset : List Tx) (nodesArray : List Node) (r : Refs) (x m : Int)
    (h : Bounded m r) (hx : x ≤ m) : Bounded m (replay dataset nodesArray r x).refs := by
  intro tx htx
  rw [replay_refs] at htx
  simp only [admitFrom_activeTx, List.mem_append] at htx
  rcases htx with h1 | h1
  · exact h tx h1
  · exact le_trans (newly_due dataset x r tx h1) hx

theorem bounded_passes (dataset : List Tx) (nodesArray : List Node) (es : List Int) (r : Refs)
    (m : Int) (h : Bounded m r) (hes : ∀ x ∈ es, x ≤ m) :
    Bounded m (passes dataset nodesArray r es) := by
  induction es generalizing r with
  | nil => exact h
  | cons x es ih =>
    exact ih _ (bounded_replay dataset nodesArray r x m h (hes x (List.mem_cons_self _ _)))
      (fun y hy => hes y (List.mem_cons_of_mem _ hy))

theorem bounded_init (m : Int) : Bounded m Refs.init := by
  intro tx htx
  simp [Refs.init] at htx

theorem admitFrom_activeTx_eq_filter (dataset : List Tx) (e : Int) (r : Refs)
    (hs : Synced dataset r) (hb : Bounded e r)
    (hd : dataset.Pairwise (fun a b => a.normalizedTime < b.normalizedTime)) :
    (admitFrom dataset e r).activeTx = dataset.filter (due e) := by
  rw [admitFrom_activeTx]
  have h1 : r.activeTx = (dataset.take r.pointer).filter (due e) := by
    rw [← hs.1]
    symm
    rw [List.filter_eq_self]
    intro tx htx
    simpa [due] using hb tx htx
  have h2 : newly dataset e r = (dataset.drop r.pointer).filter (due e) := by
    unfold newly
    exact takeWhile_eq_filter_of_sorted e _ (hd.sublist (List.drop_sublist _ _))
  rw [h2]
  conv_lhs => rw [h1]
  rw [← List.filter_append, List.take_append_drop]

theorem le_last_of_increasing (l : List Tx) (last : Tx)
    (hd : l.Pairwise (fun a b => a.normalizedTime < b.normalizedTime))
    (hl : l.getLast? = some last) : ∀ tx ∈ l, tx.normalizedTime ≤ last.normalizedTime := by
  intro tx htx
  obtain ⟨pre, hpre⟩ : ∃ pre, l = pre ++ [last] := by
    have hne : l ≠ [] := by
      intro h0
      rw [h0] at hl
      simp at hl
    refine ⟨l.dropLast, ?_⟩
    have h1 := List.dropLast_append_getLast hne
    have h2 : l.getLast hne = last := by
      rw [List.getLast?_eq_getLast l hne] at hl
      exact Option.some.inj hl
    rw [h2] at h1
    exact h1.symm
  rw [hpre] at hd htx
  rw [List.pairwise_append] at hd
  rcases List.mem_append.1 htx with h | h
  · exact le_of_lt (hd.2.2 tx h last (List.mem_singleton_self _))
  · rw [List.mem_singleton.1 h]

theorem admitFrom_all (dataset : List Tx) (e : Int) (r : Refs) (hs : Synced dataset r)
    (hall : ∀ tx ∈ dataset, tx.normalizedTime ≤ e) :
    (admitFrom dataset e r).activeTx = dataset := by
  rw [admitFrom_activeTx, hs.1]
  have : newly dataset e r = dataset.drop r.pointer := by
    unfold newly
    rw [List.takeWhile_eq_self_iff]
    intro tx htx
    simpa [due] using hall tx (List.mem_of_mem_drop htx)
  rw [this, List.take_append_drop]

theorem nonempty_of_getLast (l : List Tx) (last : Tx) (hl : l.getLast? = some last) :
    l ≠ [] := by
  intro h0
  rw [h0] at hl
  simp at hl

/-! ## Lemmas on the snapshot -/

theorem synced_mem (dataset : List Tx) (r : Refs) (h : Synced dataset r) :
    ∀ tx ∈ r.activeTx, tx ∈ dataset := by
  intro tx htx
  rw [h.1] at htx
  exact List.mem_of_mem_take htx

theorem replay_lastTouched (dataset : List Tx) (nodesArray : List Node) (r : Refs) (e : Int)
    (h : dataset ≠ []) (a : Addr) :
    mapGet (replay dataset nodesArray r e).refs.lastTouched a =
      if touches e (admitFrom dataset e r).activeTx a = true then some e
      else mapGet r.lastTouched a := by
  rw [replay_ne dataset nodesArray r e h]
  simp only [mapGet_stampAll, admitFrom_lastTouched]

theorem keysKnown_replay (dataset : List Tx) (nodesArray : List Node) (r : Refs) (e : Int)
    (hs : Synced dataset r) (hk : KeysKnown dataset r) :
    KeysKnown dataset (replay dataset nodesArray r e).refs := by
  by_cases h : dataset = []
  · subst h
    rw [replay_nil]
    exact hk
  · intro a v hav
    rw [replay_lastTouched dataset nodesArray r e h] at hav
    split at hav
    · rename_i ht
      obtain ⟨tx, htx, -, hend⟩ := (touches_iff e _ a).1 ht
      exact ⟨tx, synced_mem dataset _ (synced_admitFrom dataset e r hs) tx htx, hend⟩
    · exact hk a v hav

theorem keysKnown_run (dataset : List Tx) (nodesArray : List Node) (evs : List Event) (a : App)
    (hs : Synced dataset a.refs) (hk : KeysKnown dataset a.refs) :
    KeysKnown dataset (run dataset nodesArray a evs).refs := by
  induction evs generalizing a with
  | nil => exact hk
  | cons ev evs ih =>
    cases ev with
    | tick e =>
      exact ih _ (synced_replay dataset nodesArray a.refs e hs)
        (keysKnown_replay dataset nodesArray a.refs e hs hk)
    | restart =>
      exact ih _ (synced_init dataset) (by intro a v h; simp [handleRestart, mapGet] at h)
    | toggle => exact ih _ hs hk

theorem mem_result_nodes (dataset : List Tx) (nodesArray : List Node) (r : Refs) (e : Int)
    (g : GraphNode) (hg : g ∈ (replay dataset nodesArray r e).result.nodes) :
    dataset ≠ [] ∧ ∃ node ∈ nodesArray, g.id = node.id ∧
      0 < getOrZero (mapGet (replay dataset nodesArray r e).refs.lastTouched node.id) := by
  by_cases h : dataset = []
  · subst h
    simp [replay_nil] at hg
  · refine ⟨h, ?_⟩
    rw [replay_ne dataset nodesArray r e h] at hg ⊢
    simp only [List.mem_filter, List.mem_map, decide_eq_true_eq] at hg
    obtain ⟨⟨node, hnode, rfl⟩, hpos⟩ := hg
    exact ⟨node, hnode, rfl, hpos⟩

theorem result_nodes_of_stamp (dataset : List Tx) (nodesArray : List Node) (r : Refs) (e : Int)
    (h : dataset ≠ []) (node : Node) (hnode : node ∈ nodesArray)
    (hpos : 0 < getOrZero (mapGet (replay dataset nodesArray r e).refs.lastTouched node.id)) :
    ∃ g ∈ (replay dataset nodesArray r e).result.nodes, g.id = node.id := by
  rw [replay_ne dataset nodesArray r e h] at hpos ⊢
  refine ⟨attach (admitFrom dataset e r).balances (activeSet e (admitFrom dataset e r).activeTx [])
    (stampAll e (admitFrom dataset e r).activeTx (admitFrom dataset e r).lastTouched) node, ?_, rfl⟩
  simp only [List.mem_filter, List.mem_map, decide_eq_true_eq]
  exact ⟨⟨node, hnode, rfl⟩, hpos⟩

theorem unreferenced_not_in_nodes (dataset : List Tx) (nodesArray : List Node) (r : Refs)
    (e : Int) (hk : KeysKnown dataset r) (hs : Synced dataset r) (a : Addr)
    (h : ∀ tx ∈ dataset, tx.from_ ≠ a ∧ tx.to_ ≠ a) :
    ∀ g ∈ (replay dataset nodesArray r e).result.nodes, g.id ≠ a := by
  intro g hg hga
  obtain ⟨-, node, -, hid, hpos⟩ := mem_result_nodes dataset nodesArray r e g hg
  have hk2 := keysKnown_replay dataset nodesArray r e hs hk
  cases hm : mapGet (replay dataset nodesArray r e).refs.lastTouched node.id with
  | none => rw [hm] at hpos; simp [getOrZero] at hpos
  | some v =>
    obtain ⟨tx, htx, hend⟩ := hk2 node.id v hm
    rw [← hid, hga] at hend
    rcases hend with h1 | h1
    · exact (h tx htx).1 h1
    · exact (h tx htx).2 h1

/-! ### Pulse flags and the active count -/

theorem annotated_pulse (dataset : List Tx) (nodesArray : List Node) (r : Refs) (e : Int)
    (g : GraphNode) (hg : g ∈ (replay dataset nodesArray r e).annotated) :
    (g.isPulse = true ↔
      ∃ tx ∈ (replay dataset nodesArray r e).result.links,
        e ≤ tx.endTime ∧ (tx.from_ = g.id ∨ tx.to_ = g.id)) ∧
    (g.isPulse = true → g.lastActive = e) := by
  by_cases h : dataset = []
  · subst h
    simp [replay_nil] at hg
  · rw [replay_ne dataset nodesArray r e h] at hg ⊢
    simp only [List.mem_map] at hg
    obtain ⟨node, -, rfl⟩ := hg
    simp only [attach, decide_eq_true_eq, mem_activeSet, List.not_mem_nil, false_or]
    refine ⟨touches_iff e _ _, ?_⟩
    intro ht
    rw [mapGet_stampAll]
    simp [ht, getOrZero_some]

theorem activeCount_eq (dataset : List Tx) (nodesArray : List Node) (r : Refs) (e : Int) :
    (replay dataset nodesArray r e).result.activeCount =
      ((((replay dataset nodesArray r e).result.links.filter (live e)).map Tx.from_ ++
        ((replay dataset nodesArray r e).result.links.filter (live e)).map Tx.to_).toFinset).card
      := by
  by_cases h : dataset = []
  · subst h
    simp [replay_nil]
  · rw [replay_ne dataset nodesArray r e h]
    simp only
    rw [← List.toFinset_card_of_nodup (nodup_activeSet e _ [] List.nodup_nil)]
    congr 1
    ext a
    simp only [List.mem_toFinset, mem_activeSet, List.not_mem_nil, false_or, touches_iff,
      List.mem_append, List.mem_map, List.mem_filter, live, decide_eq_true_eq]
    constructor
    · rintro ⟨tx, htx, hl, h1 | h1⟩
      · exact Or.inl ⟨tx, ⟨htx, hl⟩, h1⟩
      · exact Or.inr ⟨tx, ⟨htx, hl⟩, h1⟩
    · rintro (⟨tx, ⟨htx, hl⟩, h1⟩ | ⟨tx, ⟨htx, hl⟩, h1⟩)
      · exact ⟨tx, htx, hl, Or.inl h1⟩
      · exact ⟨tx, htx, hl, Or.inr h1⟩

theorem result_links_mem (dataset : List Tx) (nodesArray : List Node) (r : Refs) (e : Int)
    (hs : Synced dataset r) :
    ∀ tx ∈ (replay dataset nodesArray r e).result.links, tx ∈ dataset := by
  by_cases h : dataset = []
  · subst h
    simp [replay_nil]
  · rw [replay_ne dataset nodesArray r e h]
    exact synced_mem dataset _ (synced_admitFrom dataset e r hs)

theorem all_expired (dataset : List Tx) (nodesArray : List Node) (r : Refs) (e : Int)
    (hs : Synced dataset r) (hexp : ∀ tx ∈ dataset, tx.endTime < e) :
    (replay dataset nodesArray r e).result.activeCount = 0 ∧
    ∀ g ∈ (replay dataset nodesArray r e).annotated, g.isPulse = false := by
  have hnone : ∀ tx ∈ (replay dataset nodesArray r e).result.links, ¬ e ≤ tx.endTime := by
    intro tx htx
    have := hexp tx (result_links_mem dataset nodesArray r e hs tx htx)
    omega
  constructor
  · rw [activeCount_eq]
    have : (replay dataset nodesArray r e).result.links.filter (live e) = [] := by
      rw [List.filter_eq_nil_iff]
      intro tx htx
      simpa [live] using hnone tx htx
    rw [this]
    rfl
  · intro g hg
    have := (annotated_pulse dataset nodesArray r e g hg).1
    cases hp : g.isPulse with
    | false => rfl
    | true =>
      obtain ⟨tx, htx, hl, -⟩ := this.1 hp
      exact absurd hl (hnone tx htx)

/-! ## Lemmas on sessions over a loaded table -/

theorem loadDataset_endpoints (L : Layout) (rows : List Row) (tx : Tx)
    (htx : tx ∈ loadDataset L rows) :
    (∃ node ∈ loadNodes L rows, node.id = tx.from_) ∧
    (∃ node ∈ loadNodes L rows, node.id = tx.to_) := by
  obtain ⟨h1, h2⟩ := loadDataset_lookups L rows tx htx
  have hok := nodesOk_nodesMap L (sortRows rows)
  exact ⟨⟨tx.sourceObj, mapGet_mem_values _ _ _ h1, (hok _ _ h1).2⟩,
    ⟨tx.targetObj, mapGet_mem_values _ _ _ h2, (hok _ _ h2).2⟩⟩

theorem passes_append (dataset : List Tx) (nodesArray : List Node) (r : Refs)
    (l1 l2 : List Int) :
    passes dataset nodesArray r (l1 ++ l2) =
      passes dataset nodesArray (passes dataset nodesArray r l1) l2 := by
  simp [passes, List.foldl_append]

theorem passes_cons (dataset : List Tx) (nodesArray : List Node) (r : Refs)
    (x : Int) (l : List Int) :
    passes dataset nodesArray r (x :: l) =
      passes dataset nodesArray (replay dataset nodesArray r x).refs l := rfl

theorem final_links (dataset : List Tx) (nodesArray : List Node) (es : List Int) (e : Int)
    (hd : dataset.Pairwise (fun a b => a.normalizedTime < b.normalizedTime))
    (hes : ∀ x ∈ es, x ≤ e) :
    (replay dataset nodesArray (passes dataset nodesArray Refs.init es) e).result.links =
      dataset.filter (due e) := by
  by_cases h : dataset = []
  · subst h
    simp [replay_nil]
  · rw [replay_ne dataset nodesArray _ e h]
    exact admitFrom_activeTx_eq_filter dataset e _
      (synced_passes dataset nodesArray es _ (synced_init dataset))
      (bounded_passes dataset nodesArray es _ e (bounded_init e) hes) hd

theorem mono_split (es : List Int) (e : Int) (h : (es ++ [e]).Pairwise (fun a b => a ≤ b)) :
    ∀ x ∈ es, x ≤ e := by
  intro x hx
  rw [List.pairwise_append] at h
  exact h.2.2 x hx e (List.mem_singleton_self _)

theorem stamp_persist_replay (dataset : List Tx) (nodesArray : List Node) (r : Refs)
    (x lo : Int) (a : Addr) (h : ∃ v, mapGet r.lastTouched a = some v ∧ lo ≤ v) (hx : lo ≤ x) :
    ∃ v, mapGet (replay dataset nodesArray r x).refs.lastTouched a = some v ∧ lo ≤ v := by
  by_cases hd : dataset = []
  · subst hd
    rw [replay_nil]
    exact h
  · rw [replay_lastTouched dataset nodesArray r x hd]
    split
    · exact ⟨x, rfl, hx⟩
    · exact h

theorem stamp_persist_passes (dataset : List Tx) (nodesArray : List Node) (es : List Int)
    (r : Refs) (lo : Int) (a : Addr) (h : ∃ v, mapGet r.lastTouched a = some v ∧ lo ≤ v)
    (hes : ∀ x ∈ es, lo ≤ x) :
    ∃ v, mapGet (passes dataset nodesArray r es).lastTouched a = some v ∧ lo ≤ v := by
  induction es generalizing r with
  | nil => exact h
  | cons x es ih =>
    rw [passes_cons]
    exact ih _ (stamp_persist_replay dataset nodesArray r x lo a h
      (hes x (List.mem_cons_self _ _))) (fun y hy => hes y (List.mem_cons_of_mem _ hy))

theorem replay_stamps_live (dataset : List Tx) (nodesArray : List Node) (r : Refs) (e : Int)
    (tx : Tx) (htx : tx ∈ (admitFrom dataset e r).activeTx) (hl : e ≤ tx.endTime)
    (hd : dataset ≠ []) :
    mapGet (replay dataset nodesArray r e).refs.lastTouched tx.from_ = some e ∧
    mapGet (replay dataset nodesArray r e).refs.lastTouched tx.to_ = some e := by
  have hf : touches e (admitFrom dataset e r).activeTx tx.from_ = true :=
    (touches_iff e _ _).2 ⟨tx, htx, hl, Or.inl rfl⟩
  have ht : touches e (admitFrom dataset e r).activeTx tx.to_ = true :=
    (touches_iff e _ _).2 ⟨tx, htx, hl, Or.inr rfl⟩
  rw [replay_lastTouched dataset nodesArray r e hd, replay_lastTouched dataset nodesArray r e hd]
  simp [hf, ht]

/-- A record that was live at a pass with positive elapsed keeps both endpoints stamped
with a positive value through all later passes of a non-decreasing sequence. -/
theorem stamped_after (dataset : List Tx) (nodesArray : List Node) (es : List Int) (e t : Int)
    (tx : Tx)
    (hd : dataset.Pairwise (fun a b => a.normalizedTime < b.normalizedTime))
    (hmono : (es ++ [e]).Pairwise (fun a b => a ≤ b))
    (ht : t ∈ es ++ [e]) (hpos : 0 < t) (htx : tx ∈ dataset)
    (hdue : tx.normalizedTime ≤ t) (hlive : t ≤ tx.endTime) :
    0 < getOrZero (mapGet
      (replay dataset nodesArray (passes dataset nodesArray Refs.init es) e).refs.lastTouched
      tx.from_) ∧
    0 < getOrZero (mapGet
      (replay dataset nodesArray (passes dataset nodesArray Refs.init es) e).refs.lastTouched
      tx.to_) := by
  have hne : dataset ≠ [] := by
    intro h0
    rw [h0] at htx
    simp at htx
  have hfin : (replay dataset nodesArray (passes dataset nodesArray Refs.init es) e).refs =
      passes dataset nodesArray Refs.init (es ++ [e]) := by
    rw [passes_append]
    rfl
  obtain ⟨pre, post, hsplit⟩ := List.append_of_mem ht
  rw [hfin, hsplit, passes_append, passes_cons]
  rw [hsplit] at hmono
  rw [List.pairwise_append] at hmono
  obtain ⟨-, hpost, hpre⟩ := hmono
  rw [List.pairwise_cons] at hpost
  have hpre2 : ∀ x ∈ pre, x ≤ t := fun x hx => hpre x hx t (List.mem_cons_self _ _)
  have hmem : tx ∈ (admitFrom dataset t (passes dataset nodesArray Refs.init pre)).activeTx := by
    rw [admitFrom_activeTx_eq_filter dataset t _
      (synced_passes dataset nodesArray pre _ (synced_init dataset))
      (bounded_passes dataset nodesArray pre _ t (bounded_init t) hpre2) hd]
    rw [List.mem_filter]
    exact ⟨htx, by simpa [due] using hdue⟩
  obtain ⟨s1, s2⟩ := replay_stamps_live dataset nodesArray
    (passes dataset nodesArray Refs.init pre) t tx hmem hlive hne
  obtain ⟨v1, hv1, hle1⟩ := stamp_persist_passes dataset nodesArray post _ t tx.from_
    ⟨t, s1, le_refl _⟩ hpost.1
  obtain ⟨v2, hv2, hle2⟩ := stamp_persist_passes dataset nodesArray post _ t tx.to_
    ⟨t, s2, le_refl _⟩ hpost.1
  rw [hv1, hv2, getOrZero_some, getOrZero_some]
  constructor <;> omega

/-! ## Node ids are distinct -/

theorem mapGet_none_iff {α : Type} (m : JsMap α) (a : Addr) :
    mapGet m a = none ↔ a ∉ m.map Prod.fst := by
  induction m with
  | nil => simp [mapGet]
  | cons p m ih =>
    obtain ⟨k, w⟩ := p
    by_cases hk : k = a
    · simp [mapGet, hk]
    · simp only [mapGet, hk, if_false, ih, List.map_cons, List.mem_cons, not_or]
      constructor
      · intro h; exact ⟨fun h2 => hk h2.symm, h⟩
      · intro h; exact h.2

theorem mapSet_of_none {α : Type} (m : JsMap α) (a : Addr) (v : α) (h : mapGet m a = none) :
    mapSet m a v = m ++ [(a, v)] := by
  induction m with
  | nil => rfl
  | cons p m ih =>
    obtain ⟨k, w⟩ := p
    by_cases hk : k = a
    · simp [mapGet, hk] at h
    · simp only [mapGet, hk, if_false] at h
      simp [mapSet, hk, ih h]

theorem keysOk_addNode (L : Layout) (m : JsMap Node) (a : Addr) (h : KeysOk m) :
    KeysOk (addNode L m a) := by
  unfold addNode
  split
  · rename_i hc
    simp only [Bool.and_eq_true, Bool.not_eq_true', mapHas] at hc
    have hnone : mapGet m a = none := by
      cases hg : mapGet m a with
      | none => rfl
      | some n => rw [hg] at hc; simp at hc
    rw [mapSet_of_none m a _ hnone]
    obtain ⟨h1, h2⟩ := h
    constructor
    · rw [List.map_append, List.nodup_append]
      refine ⟨h1, by simp, ?_⟩
      intro x hx hx2
      simp only [List.map_cons, List.map_nil, List.mem_singleton] at hx2
      subst hx2
      exact (mapGet_none_iff m x).1 hnone hx
    · intro p hp
      rcases List.mem_append.1 hp with hp | hp
      · exact h2 p hp
      · rw [List.mem_singleton.1 hp]
  · exact h

theorem keysOk_fold (L : Layout) (rows : List Row) (m : JsMap Node) (h : KeysOk m) :
    KeysOk (rows.foldl (fun m tx => addNode L (addNode L m tx.from_) tx.to_) m) := by
  induction rows generalizing m with
  | nil => exact h
  | cons tx rows ih => exact ih _ (keysOk_addNode L _ _ (keysOk_addNode L _ _ h))

theorem loadNodes_nodup (L : Layout) (rows : List Row) :
    ((loadNodes L rows).map Node.id).Nodup := by
  have h : KeysOk (nodesMap L (sortRows rows)) :=
    keysOk_fold L _ [] ⟨List.nodup_nil, by intro p hp; simp at hp⟩
  have heq : (loadNodes L rows).map Node.id = (nodesMap L (sortRows rows)).map Prod.fst := by
    unfold loadNodes mapValues
    rw [List.map_map]
    apply List.map_congr_left
    intro p hp
    exact h.2 p hp
  rw [heq]
  exact h.1

theorem pulse_count (dataset : List Tx) (nodesArray : List Node) (r : Refs) (e : Int)
    (hnd : (nodesArray.map Node.id).Nodup)
    (hcov : ∀ tx ∈ (replay dataset nodesArray r e).result.links,
      tx.from_ ∈ nodesArray.map Node.id ∧ tx.to_ ∈ nodesArray.map Node.id) :
    (replay dataset nodesArray r e).result.activeCount =
      ((replay dataset nodesArray r e).annotated.filter (fun g => g.isPulse)).length := by
  by_cases h : dataset = []
  · subst h
    simp [replay_nil]
  · rw [replay_ne dataset nodesArray r e h] at hcov ⊢
    simp only at hcov ⊢
    generalize hS : activeSet e (admitFrom dataset e r).activeTx [] = S
    have hSnd : S.Nodup := by rw [← hS]; exact nodup_activeSet e _ [] List.nodup_nil
    have hSsub : ∀ a ∈ S, a ∈ nodesArray.map Node.id := by
      intro a ha
      rw [← hS, mem_activeSet] at ha
      rcases ha with ha | ha
      · simp at ha
      · obtain ⟨tx, htx, -, hend⟩ := (touches_iff e _ a).1 ha
        rcases hend with h1 | h1
        · rw [← h1]; exact (hcov tx htx).1
        · rw [← h1]; exact (hcov tx htx).2
    have hlen : ((nodesArray.map (attach (admitFrom dataset e r).balances S
        (stampAll e (admitFrom dataset e r).activeTx (admitFrom dataset e r).lastTouched))).filter
          (fun g => g.isPulse)).length =
        ((nodesArray.map Node.id).filter (fun a => decide (a ∈ S))).length := by
      rw [List.filter_map, List.filter_map, List.length_map, List.length_map]
      rfl
    rw [hlen]
    apply List.Perm.length_eq
    rw [List.perm_ext_iff_of_nodup hSnd (hnd.filter _)]
    intro a
    simp only [List.mem_filter, decide_eq_true_eq]
    constructor
    · intro ha; exact ⟨hSsub a ha, ha⟩
    · intro ha; exact ha.2

/-! ## Exact arithmetic below 2^53 -/

theorem roundToDouble_small (n : Int) (h : n.natAbs < 2 ^ 53) :
    roundToDouble n = JsNum.num n := by
  unfold roundToDouble
  simp only [h, if_true]

theorem value_of_finite (v : JsNum) (h : isFinite v = true) : v = JsNum.num (intValue v) := by
  cases v <;> simp [isFinite, intValue] at h ⊢

theorem absTotal_cons (tx : Tx) (l : List Tx) :
    absTotal (tx :: l) = (intValue tx.value).natAbs + absTotal l := by
  simp [absTotal]

theorem credit_cons (a : Addr) (tx : Tx) (l : List Tx) :
    credit a (tx :: l) = (if tx.to_ = a then intValue tx.value else 0) + credit a l := by
  by_cases h : tx.to_ = a <;> simp [credit, List.filter_cons, h]

theorem debit_cons (a : Addr) (tx : Tx) (l : List Tx) :
    debit a (tx :: l) = (if tx.from_ = a then intValue tx.value else 0) + debit a l := by
  by_cases h : tx.from_ = a <;> simp [debit, List.filter_cons, h]

theorem foldl_jsAdd_exact (l : List Tx) (acc : Int)
    (hall : ∀ t ∈ l, isFinite t.value = true)
    (hb : acc.natAbs + absTotal l < 2 ^ 53) :
    (l.map Tx.value).foldl jsAdd (JsNum.num acc) =
      JsNum.num (acc + (l.map (fun t => intValue t.value)).sum) := by
  induction l generalizing acc with
  | nil => simp
  | cons tx rest ih =>
    have hv := value_of_finite tx.value (hall tx (List.mem_cons_self _ _))
    rw [absTotal_cons] at hb
    have hsmall : (acc + intValue tx.value).natAbs < 2 ^ 53 := by
      have := Int.natAbs_add_le acc (intValue tx.value)
      omega
    have hstep : jsAdd (JsNum.num acc) tx.value = JsNum.num (acc + intValue tx.value) := by
      rw [hv]
      simp only [jsAdd, intValue]
      exact roundToDouble_small _ hsmall
    simp only [List.map_cons, List.foldl_cons, List.sum_cons]
    rw [hstep, ih (acc + intValue tx.value) (fun t ht => hall t (List.mem_cons_of_mem _ ht))
      (by omega)]
    congr 1
    omega

theorem jsSub_exact (b v : Int) (h : (b - v).natAbs < 2 ^ 53) :
    jsSub (JsNum.num b) (JsNum.num v) = JsNum.num (b - v) := by
  simp only [jsSub, jsNeg, jsAdd]
  rw [← Int.sub_eq_add_neg]
  exact roundToDouble_small _ h

theorem jsAdd_exact (b v : Int) (h : (b + v).natAbs < 2 ^ 53) :
    jsAdd (JsNum.num b) (JsNum.num v) = JsNum.num (b + v) := by
  simp only [jsAdd]
  exact roundToDouble_small _ h

theorem getJsOrZero_num (n : Int) : getJsOrZero (some (JsNum.num n)) = JsNum.num n := rfl

theorem foldl_balanceStep_exact (a : Addr) (l : List Tx) (b : Option JsNum) (b0 : Int)
    (hb0 : getJsOrZero b = JsNum.num b0)
    (hall : ∀ t ∈ l, isFinite t.value = true)
    (hb : b0.natAbs + absTotal l < 2 ^ 53) :
    getJsOrZero (l.foldl (balanceStep a) b) = JsNum.num (b0 + credit a l - debit a l) := by
  induction l generalizing b b0 with
  | nil => simp [credit, debit, hb0]
  | cons tx rest ih =>
    obtain ⟨v, hv⟩ : ∃ v, tx.value = JsNum.num v :=
      ⟨_, value_of_finite tx.value (hall tx (List.mem_cons_self _ _))⟩
    have hiv : intValue tx.value = v := by rw [hv]; rfl
    rw [absTotal_cons, hiv] at hb
    have hrest : ∀ t ∈ rest, isFinite t.value = true :=
      fun t ht => hall t (List.mem_cons_of_mem _ ht)
    have h1 := Int.natAbs_sub_le b0 v
    have h2 := Int.natAbs_add_le b0 v
    have h3 : b0 - v + v = b0 := by omega
    simp only [List.foldl_cons]
    rw [credit_cons, debit_cons, hiv]
    by_cases hf : tx.from_ = a <;> by_cases ht : tx.to_ = a
    · have hs : balanceStep a b tx = some (JsNum.num (b0 - v + v)) := by
        simp only [balanceStep, hf, ht, if_true, hb0, hv]
        rw [jsSub_exact _ _ (by omega), getJsOrZero_num,
          jsAdd_exact _ _ (by rw [h3]; omega)]
      rw [hs, ih _ (b0 - v + v) (getJsOrZero_num _) hrest (by rw [h3]; omega)]
      simp only [hf, ht, if_true]
      congr 1
      omega
    · have hs : balanceStep a b tx = some (JsNum.num (b0 - v)) := by
        simp only [balanceStep, hf, ht, if_true, if_false, hb0, hv]
        rw [jsSub_exact _ _ (by omega)]
      rw [hs, ih _ (b0 - v) (getJsOrZero_num _) hrest (by omega)]
      simp only [hf, ht, if_true, if_false]
      congr 1
      omega
    · have hs : balanceStep a b tx = some (JsNum.num (b0 + v)) := by
        simp only [balanceStep, hf, ht, if_true, if_false, hb0, hv]
        rw [jsAdd_exact _ _ (by omega)]
      rw [hs, ih _ (b0 + v) (getJsOrZero_num _) hrest (by omega)]
      simp only [hf, ht, if_true, if_false]
      congr 1
      omega
    · have hs : balanceStep a b tx = b := by
        simp only [balanceStep, hf, ht, if_false]
      rw [hs, ih b b0 hb0 hrest (by omega)]
      simp only [hf, ht, if_false]
      congr 1
      omega

theorem blockDiff_self (x : JsNum) :
    (isFinite x = true → max0 (jsSub x x) = JsNum.num 0) ∧
    (isFinite x = false → max0 (jsSub x x) = JsNum.nan) := by
  cases x with
  | nan => simp [isFinite, jsSub, jsNeg, jsAdd, max0]
  | posInf => simp [isFinite, jsSub, jsNeg, jsAdd, max0]
  | negInf => simp [isFinite, jsSub, jsNeg, jsAdd, max0]
  | num n =>
    refine ⟨fun _ => ?_, fun h => by simp [isFinite] at h⟩
    rw [jsSub_exact n n (by simp)]
    simp [max0]

theorem loadDataset_at (L : Layout) (rows : List Row) (k : Nat) (r : Row)
    (h : ((sortRows rows).filter validRow)[k]? = some r) :
    ∃ t, (loadDataset L rows)[k]? = some t ∧ t.row = coerceRow r ∧
      t.normalizedTime = (k : Int) * TX_INTERVAL := by
  have hk : ((loadDataset L rows).map Tx.row)[k]? = some (coerceRow r) := by
    rw [loadDataset_rows, List.getElem?_map, h]
    rfl
  rw [List.getElem?_map] at hk
  cases ht : (loadDataset L rows)[k]? with
  | none => rw [ht] at hk; simp at hk
  | some t =>
    rw [ht] at hk
    simp only [Option.map_some', Option.some.injEq] at hk
    exact ⟨t, rfl, hk, loadDataset_time L rows k t ht⟩

theorem loadDataset_length (L : Layout) (rows : List Row) :
    (loadDataset L rows).length = ((sortRows rows).filter validRow).length := by
  have := congrArg List.length (loadDataset_rows L rows)
  simpa using this

/-! ## The claims -/

/-- C1: the loader pushes one record for each row of the sorted table whose endpoints are
present and different, and the record of the `k`-th such row (0-based, however many rows
were skipped before it and whatever its timestamp) is the `k`-th record of the output and
has `normalizedTime = k * TX_INTERVAL = k * 600`; hence `normalizedTime` is strictly
increasing along the output. -/
theorem normalizedTime_by_index (L : Layout) (rows : List Row) :
    TX_INTERVAL = 600 ∧
    (loadDataset L rows).length =
      ((sortRows rows).filter
        (fun tx => truthy tx.from_ && truthy tx.to_ && decide (tx.from_ ≠ tx.to_))).length ∧
    (∀ (k : Nat) (r : Row),
      ((sortRows rows).filter
        (fun tx => truthy tx.from_ && truthy tx.to_ && decide (tx.from_ ≠ tx.to_)))[k]?
          = some r →
      ∃ t, (loadDataset L rows)[k]? = some t ∧
        t.from_ = r.from_ ∧ t.to_ = r.to_ ∧ t.timestamp = r.timestamp ∧
        t.normalizedTime = (k : Int) * 600) ∧
    (∀ (k : Nat) (t : Tx), (loadDataset L rows)[k]? = some t →
      t.normalizedTime = (k : Int) * 600) ∧
    (loadDataset L rows).Pairwise (fun a b => a.normalizedTime < b.normalizedTime) := by
  refine ⟨rfl, loadDataset_length L rows, ?_, fun k t h => loadDataset_time L rows k t h,
    loadDataset_increasing L rows⟩
  intro k r hr
  obtain ⟨t, ht, hrow, htime⟩ := loadDataset_at L rows k r hr
  refine ⟨t, ht, ?_, ?_, ?_, htime⟩
  · exact congrArg Row.from_ hrow
  · exact congrArg Row.to_ hrow
  · exact congrArg Row.timestamp hrow

/-- Witness of C1 on the sample table: the self-transfer of `X`, first by timestamp, takes
no slot; the row `A -> B` (timestamp 4) gets time 0 and the row `B -> C` (timestamp 9) gets
time 600. -/
theorem normalizedTime_by_index_witness :
    (sortRows sampleRows).map (fun r => (r.from_, r.to_, r.timestamp)) =
      [(some "X", some "X", 1), (some "A", some "B", 4), (some "B", some "C", 9)] ∧
    (loadDataset flatLayout sampleRows).map
        (fun t => (t.from_, t.to_, t.timestamp, t.normalizedTime)) =
      [(some "A", some "B", 4, 0), (some "B", some "C", 9, 600)] ∧
    (∃ t, (loadDataset flatLayout sampleRows)[1]? = some t ∧
      t.from_ = some "B" ∧ t.to_ = some "C" ∧ t.timestamp = 9 ∧
      t.normalizedTime = (1 : Int) * 600) :=
  ⟨by decide, by decide,
    (normalizedTime_by_index flatLayout sampleRows).2.2.1 1
      { from_ := some "B", to_ := some "C", value := JsNum.num 5,
        blocknumber := JsNum.num 103, timestamp := 9 } (by decide)⟩

/-- C2: no processed record has `from` equal to `to` or a falsy `from` or `to`, and the
processed output is, in order, the rows of the timestamp-sorted table whose two endpoints
are both present and different (each with its `value` coerced to a number); the sorted
table is a rearrangement of the input in ascending timestamp order. -/
theorem processed_rows_are_valid_sorted_rows (L : Layout) (rows : List Row) :
    (∀ t ∈ loadDataset L rows,
      t.from_ ≠ t.to_ ∧ truthy t.from_ = true ∧ truthy t.to_ = true) ∧
    (loadDataset L rows).map Tx.row =
      ((sortRows rows).filter
        (fun tx => truthy tx.from_ && truthy tx.to_ && decide (tx.from_ ≠ tx.to_))).map
        (fun tx => { tx with value := jsOrZero (toNumber tx.value) }) ∧
    (sortRows rows).Pairwise (fun a b => a.timestamp ≤ b.timestamp) ∧
    (sortRows rows).Perm rows := by
  refine ⟨?_, loadDataset_rows L rows, sortRows_sorted rows, sortRows_perm rows⟩
  intro t ht
  have h := loadDataset_valid L rows t ht
  simp only [validRow, Tx.row, Bool.and_eq_true, decide_eq_true_eq] at h
  exact ⟨h.2, h.1.1, h.1.2⟩

/-- C3, as stated with the exact sum, fails: for the values 2^53 and 1 the exact sum is
9007199254740993 while the returned `totalVolume` is 9007199254740992, the double sum. -/
theorem full_replay_volume_counterexample :
    (loadDataset flatLayout bigRows).map (fun t => (t.value, t.normalizedTime)) =
      [(JsNum.num 9007199254740992, 0), (JsNum.num 1, 600)] ∧
    ((loadDataset flatLayout bigRows).map (fun t => intValue t.value)).sum =
      9007199254740993 ∧
    (passAt flatLayout bigRows [0] 600).result.totalVolume = JsNum.num 9007199254740992 ∧
    ¬ (passAt flatLayout bigRows [0] 600).result.totalVolume =
        JsNum.num ((loadDataset flatLayout bigRows).map (fun t => intValue t.value)).sum := by
  refine ⟨by decide, by decide, by decide, by decide⟩

/-- C3, amended: from the initial state, after any passes and a last pass at an elapsed
value that is at least the last record's `normalizedTime`, the returned `totalVolume` is
the sum of `value` over all processed records accumulated in dataset order in double
arithmetic, each record once; when every value is finite and the absolute values add up to
less than 2^53 it is the exact sum. -/
theorem full_replay_volume (L : Layout) (rows : List Row) (es : List Int) (e : Int)
    (hne : loadDataset L rows ≠ [])
    (he : ((loadDataset L rows).getLast hne).normalizedTime ≤ e) :
    (passAt L rows es e).result.totalVolume =
      ((loadDataset L rows).map Tx.value).foldl jsAdd (JsNum.num 0) ∧
    ((∀ t ∈ loadDataset L rows, isFinite t.value = true) →
      ((loadDataset L rows).map (fun t => (intValue t.value).natAbs)).sum < 2 ^ 53 →
      (passAt L rows es e).result.totalVolume =
        JsNum.num ((loadDataset L rows).map (fun t => intValue t.value)).sum) := by
  have hs : Synced (loadDataset L rows) (sessionAt L rows es) :=
    synced_passes _ _ es _ (synced_init _)
  have hall : ∀ tx ∈ loadDataset L rows, tx.normalizedTime ≤ e := by
    intro tx htx
    exact le_trans (le_last_of_increasing _ _ (loadDataset_increasing L rows)
      (List.getLast?_eq_getLast _ hne) tx htx) he
  have h1 := admitFrom_all (loadDataset L rows) e _ hs hall
  have h2 := (synced_admitFrom (loadDataset L rows) e _ hs).2.2.1
  have hvol : (passAt L rows es e).result.totalVolume =
      ((loadDataset L rows).map Tx.value).foldl jsAdd (JsNum.num 0) := by
    unfold passAt
    rw [replay_ne _ _ _ e hne]
    simp only
    rw [h2, h1]
    rfl
  refine ⟨hvol, ?_⟩
  intro hfin hsmall
  rw [hvol, foldl_jsAdd_exact _ 0 hfin (by simpa [absTotal] using hsmall)]
  simp

/-- Witness of the amended C3 on the sample table, stepping through 0 and 300 before
600: the volume is 10 + 5 = 15. -/
theorem full_replay_volume_witness :
    loadDataset flatLayout sampleRows ≠ [] ∧
    (passAt flatLayout sampleRows [0, 300] 600).result.totalVolume = JsNum.num 15 ∧
    (passAt flatLayout sampleRows [0, 300] 600).result.totalVolume =
      ((loadDataset flatLayout sampleRows).map Tx.value).foldl jsAdd (JsNum.num 0) :=
  ⟨by decide, by decide,
    (full_replay_volume flatLayout sampleRows [0, 300] 600 (by decide) (by decide)).1⟩

/-- C4, as stated, fails, whether the two sums are exact or accumulated in double
arithmetic. When `B` receives 2^53 and then 1, its balance is 9007199254740992 while the
exact sum is 9007199254740993. When `B` receives 2^53, sends 2^53 and then receives 1, its
balance is 1 while the sum received, 2^53 in double arithmetic, minus the sum sent is 0. -/
theorem balance_is_signed_sum_counterexample :
    ((passAt flatLayout bigRows [0] 600).annotated.map (fun g => (g.id, g.balance)) =
        [(some "A", JsNum.num (-9007199254740992)), (some "B", JsNum.num 9007199254740992),
         (some "C", JsNum.num (-1))] ∧
      credit (some "B") (loadDataset flatLayout bigRows) -
        debit (some "B") (loadDataset flatLayout bigRows) = 9007199254740993 ∧
      ¬ ∀ g ∈ (passAt flatLayout bigRows [0] 600).annotated,
          g.balance =
            JsNum.num
              (credit g.id ((loadDataset flatLayout bigRows).filter
                  (fun tx => decide (tx.normalizedTime ≤ 600))) -
                debit g.id ((loadDataset flatLayout bigRows).filter
                  (fun tx => decide (tx.normalizedTime ≤ 600))))) ∧
    ((passAt flatLayout swingRows [0, 600] 1200).annotated.map (fun g => (g.id, g.balance)) =
        [(some "P", JsNum.num (-9007199254740992)), (some "B", JsNum.num 1),
         (some "Q", JsNum.num 9007199254740992), (some "R", JsNum.num (-1))] ∧
      ¬ ∀ g ∈ (passAt flatLayout swingRows [0, 600] 1200).annotated,
          g.balance =
            jsSub
              (jsSum ((((loadDataset flatLayout swingRows).filter
                  (fun tx => decide (tx.normalizedTime ≤ 1200))).filter
                  (fun tx => decide (tx.to_ = g.id))).map Tx.value))
              (jsSum ((((loadDataset flatLayout swingRows).filter
                  (fun tx => decide (tx.normalizedTime ≤ 1200))).filter
                  (fun tx => decide (tx.from_ = g.id))).map Tx.value))) := by
  refine ⟨⟨by decide, by decide, by decide⟩, ⟨by decide, by decide⟩⟩

/-- C4, amended: from the initial state, after a pass at `e` reached by non-decreasing
elapsed values, the balance attached to every node is the running signed sum over the
processed records with `normalizedTime <= e`, taken in dataset order in double arithmetic
(a debit when the node is `from`, a credit when it is `to`, each applied to
`stored || 0`); when the values of those records are finite and their absolute values add
up to less than 2^53 it is the exact sum over those that have the node as `to` minus the
exact sum over those that have it as `from`; every node of the node list gets a balance. -/
theorem balance_is_signed_sum (L : Layout) (rows : List Row) (es : List Int) (e : Int)
    (hmono : (es ++ [e]).Pairwise (fun a b => a ≤ b)) :
    (∀ g ∈ (passAt L rows es e).annotated,
      g.balance =
        getJsOrZero (runBalance g.id
          ((loadDataset L rows).filter (fun tx => decide (tx.normalizedTime ≤ e)))) ∧
      ((∀ t ∈ (loadDataset L rows).filter (fun tx => decide (tx.normalizedTime ≤ e)),
          isFinite t.value = true) →
        absTotal ((loadDataset L rows).filter (fun tx => decide (tx.normalizedTime ≤ e)))
          < 2 ^ 53 →
        g.balance =
          JsNum.num
            ((((loadDataset L rows).filter
                (fun tx => decide (tx.normalizedTime ≤ e) && decide (tx.to_ = g.id))).map
              (fun t => intValue t.value)).sum -
            (((loadDataset L rows).filter
                (fun tx => decide (tx.normalizedTime ≤ e) && decide (tx.from_ = g.id))).map
              (fun t => intValue t.value)).sum))) ∧
    (loadDataset L rows ≠ [] →
      (passAt L rows es e).annotated.map GraphNode.id = (loadNodes L rows).map Node.id) := by
  constructor
  · intro g hg
    by_cases hne : loadDataset L rows = []
    · unfold passAt at hg
      rw [hne, replay_nil] at hg
      simp at hg
    · have hs : Synced (loadDataset L rows) (sessionAt L rows es) :=
        synced_passes _ _ es _ (synced_init _)
      have hb : Bounded e (sessionAt L rows es) :=
        bounded_passes _ _ es _ e (bounded_init e) (mono_split es e hmono)
      have hact := admitFrom_activeTx_eq_filter _ e _ hs hb (loadDataset_increasing L rows)
      have hbal := (synced_admitFrom (loadDataset L rows) e _ hs).2.2.2
      unfold passAt at hg
      rw [replay_ne _ _ _ e hne] at hg
      simp only [List.mem_map] at hg
      obtain ⟨node, -, rfl⟩ := hg
      have hrun : (attach (admitFrom (loadDataset L rows) e (sessionAt L rows es)).balances
          (activeSet e (admitFrom (loadDataset L rows) e (sessionAt L rows es)).activeTx [])
          (stampAll e (admitFrom (loadDataset L rows) e (sessionAt L rows es)).activeTx
            (admitFrom (loadDataset L rows) e (sessionAt L rows es)).lastTouched) node).balance
          = getJsOrZero (runBalance node.id ((loadDataset L rows).filter (due e))) := by
        simp only [attach]
        rw [hbal node.id, hact]
      refine ⟨hrun, ?_⟩
      intro hfin hsmall
      rw [hrun]
      have hex := foldl_balanceStep_exact node.id ((loadDataset L rows).filter (due e)) none 0
        rfl hfin (by simpa using hsmall)
      unfold runBalance
      rw [hex]
      simp only [attach, credit, debit, due, List.filter_filter, Bool.and_comm, zero_add]
  · intro hne
    unfold passAt
    rw [replay_ne _ _ _ e hne]
    simp only [List.map_map]
    rfl

/-- Witness of the amended C4: the example of the two records `A -> B` (10, time 0) and
`B -> C` (5, time 600). At elapsed 0 the balances are A = -10, B = +10 (C untouched, 0); at
elapsed 600 they are A = -10, B = +5, C = +5 with `totalVolume = 15`. -/
theorem balance_is_signed_sum_witness :
    (loadDataset flatLayout pairRows).map
        (fun t => (t.from_, t.to_, t.value, t.normalizedTime)) =
      [(some "A", some "B", JsNum.num 10, 0), (some "B", some "C", JsNum.num 5, 600)] ∧
    (passAt flatLayout pairRows [] 0).annotated.map (fun g => (g.id, g.balance)) =
      [(some "A", JsNum.num (-10)), (some "B", JsNum.num 10), (some "C", JsNum.num 0)] ∧
    (passAt flatLayout pairRows [0] 600).annotated.map (fun g => (g.id, g.balance)) =
      [(some "A", JsNum.num (-10)), (some "B", JsNum.num 5), (some "C", JsNum.num 5)] ∧
    (passAt flatLayout pairRows [0] 600).result.totalVolume = JsNum.num 15 ∧
    (∀ g ∈ (passAt flatLayout pairRows [0] 600).annotated,
      g.balance =
        getJsOrZero (runBalance g.id
          ((loadDataset flatLayout pairRows).filter
            (fun tx => decide (tx.normalizedTime ≤ 600))))) :=
  ⟨by decide, by decide, by decide, by decide,
    fun g hg => ((balance_is_signed_sum flatLayout pairRows [0] 600 (by decide)).1 g hg).1⟩

/-- C5: from every session state, `handleRestart` leaves the cursor at 0, the active edge
list, the balance map and the last-active map empty, the volume 0, the block and timestamp
labels `'-'`, the block delta 0, elapsed 0 and the play flag set; hence a pass at any `e`
after a restart is the pass at `e` of a fresh session, and over a loaded table it admits
again from the first record on. -/
theorem restart_resets_session (L : Layout) (rows : List Row) (evs : List Event) (e : Int) :
    (handleRestart (appAt L rows evs)).refs.pointer = 0 ∧
    (handleRestart (appAt L rows evs)).refs.activeTx = [] ∧
    (handleRestart (appAt L rows evs)).refs.balances = [] ∧
    (handleRestart (appAt L rows evs)).refs.lastTouched = [] ∧
    (handleRestart (appAt L rows evs)).refs.currentVol = JsNum.num 0 ∧
    (handleRestart (appAt L rows evs)).refs.currentBlock = none ∧
    (handleRestart (appAt L rows evs)).refs.currentBlockDiff = JsNum.num 0 ∧
    (handleRestart (appAt L rows evs)).refs.currentTs = none ∧
    (handleRestart (appAt L rows evs)).elapsed = 0 ∧
    (handleRestart (appAt L rows evs)).isPlaying = true ∧
    replay (loadDataset L rows) (loadNodes L rows) (handleRestart (appAt L rows evs)).refs e =
      replay (loadDataset L rows) (loadNodes L rows) App.init.refs e ∧
    (replay (loadDataset L rows) (loadNodes L rows)
        (handleRestart (appAt L rows evs)).refs e).result.links =
      (loadDataset L rows).filter (fun tx => decide (tx.normalizedTime ≤ e)) := by
  refine ⟨rfl, rfl, rfl, rfl, rfl, rfl, rfl, rfl, rfl, rfl, rfl, ?_⟩
  exact final_links (loadDataset L rows) (loadNodes L rows) [] e
    (loadDataset_increasing L rows) (by intro x hx; simp at hx)

/-- C6: in every session reached from a fresh mount by ticks, restarts and play/stop
toggles, and at every elapsed value, an address that is neither the `from` nor the `to`
of any processed record is not the id of a node of `graphData.nodes`. -/
theorem unreferenced_node_not_rendered (L : Layout) (rows : List Row) (evs : List Event)
    (e : Int) (a : Addr)
    (h : ∀ tx ∈ loadDataset L rows, tx.from_ ≠ a ∧ tx.to_ ≠ a) :
    ∀ g ∈ (replay (loadDataset L rows) (loadNodes L rows) (appAt L rows evs).refs e).result.nodes,
      g.id ≠ a :=
  unreferenced_not_in_nodes (loadDataset L rows) (loadNodes L rows) _ e
    (keysKnown_run _ _ evs App.init (synced_init _)
      (by intro a v h; simp [App.init, Refs.init, mapGet] at h))
    (synced_run _ _ evs App.init (synced_init _)) a h

/-- Witness of C6: in the sample table the address `X` occurs only in a self-transfer row;
it is in the node list, in no processed record, and in no snapshot. -/
theorem unreferenced_node_not_rendered_witness :
    (∃ node ∈ loadNodes flatLayout sampleRows, node.id = some "X") ∧
    (∀ tx ∈ loadDataset flatLayout sampleRows, tx.from_ ≠ some "X" ∧ tx.to_ ≠ some "X") ∧
    (∀ g ∈ (replay (loadDataset flatLayout sampleRows) (loadNodes flatLayout sampleRows)
        (appAt flatLayout sampleRows
          [Event.tick 0, Event.toggle, Event.tick 700, Event.restart, Event.tick 5]).refs
        650).result.nodes,
      g.id ≠ some "X") :=
  ⟨by decide, by decide,
    unreferenced_node_not_rendered flatLayout sampleRows
      [Event.tick 0, Event.toggle, Event.tick 700, Event.restart, Event.tick 5] 650 (some "X")
      (by decide)⟩

/-- C7, as stated, fails: a first row whose `blocknumber` cell is missing is kept, and its
block delta is `Math.max(0, NaN - NaN)`, which is `NaN`, not 0. -/
theorem first_blockDiff_counterexample :
    (loadDataset flatLayout noBlockRows).map (fun t => (t.from_, t.to_, t.blockDiff)) =
      [(some "A", some "B", JsNum.nan)] ∧
    ¬ ∀ t, (loadDataset flatLayout noBlockRows).head? = some t → t.blockDiff = JsNum.num 0 := by
  refine ⟨by decide, ?_⟩
  intro h
  have := h ((loadDataset flatLayout noBlockRows).head (by decide)) (by decide)
  revert this
  decide

/-- C7, amended: the first processed record has `blockDiff = 0` whenever its `blocknumber`
reads as a finite number, whatever that number is; when the `blocknumber` is missing, not
numeric or infinite, the block delta is `NaN`. -/
theorem first_blockDiff_zero (L : Layout) (rows : List Row) (t : Tx)
    (h : (loadDataset L rows).head? = some t) :
    (isFinite (toNumber t.blocknumber) = true → t.blockDiff = JsNum.num 0) ∧
    (isFinite (toNumber t.blocknumber) = false → t.blockDiff = JsNum.nan) := by
  have hd := (loadInv_processRows L _ (sortRows rows)).2.2 t h
  rw [hd]
  exact blockDiff_self (toNumber t.blocknumber)

/-- Witness of the amended C7: the first record of the sample table has block number 100
and block delta 0. -/
theorem first_blockDiff_zero_witness :
    ((loadDataset flatLayout sampleRows).head (by decide)).blocknumber = JsNum.num 100 ∧
    ((loadDataset flatLayout sampleRows).head (by decide)).blockDiff = JsNum.num 0 :=
  ⟨by decide,
    (first_blockDiff_zero flatLayout sampleRows
      ((loadDataset flatLayout sampleRows).head (by decide)) (by decide)).1 (by decide)⟩

theorem pointer_mono (dataset : List Tx) (nodesArray : List Node) (r : Refs) (e : Int) :
    r.pointer ≤ (replay dataset nodesArray r e).refs.pointer := by
  rw [replay_refs]
  simp only [admitFrom_pointer]
  omega

theorem passes_pointer_mono (dataset : List Tx) (nodesArray : List Node) (es : List Int)
    (r : Refs) : r.pointer ≤ (passes dataset nodesArray r es).pointer := by
  induction es generalizing r with
  | nil => exact le_refl _
  | cons x es ih =>
    rw [passes_cons]
    exact le_trans (pointer_mono dataset nodesArray r x) (ih _)

theorem nodup_of_increasing (l : List Tx)
    (h : l.Pairwise (fun a b => a.normalizedTime < b.normalizedTime)) : l.Nodup := by
  unfold List.Nodup
  apply h.imp
  intro a b hab heq
  rw [heq] at hab
  exact lt_irrefl _ hab

/-- C8: from the initial state, along passes at non-decreasing elapsed values, the cursor
does not decrease (from any earlier point of the sequence to its end, and over the pass at
`e`); after the pass at `e` the list returned as `graphData.links` is the
dataset's records with `normalizedTime <= e` in dataset order, a prefix of the dataset
(the first `pointer` records), without repetition and whatever their `endTime`; a second
pass at the same `e` returns the same refs and the same result. -/
theorem admission_invariant (L : Layout) (rows : List Row) (es : List Int) (e : Int)
    (hmono : (es ++ [e]).Pairwise (fun a b => a ≤ b)) :
    (∀ k, (sessionAt L rows (es.take k)).pointer ≤ (sessionAt L rows es).pointer) ∧
    (sessionAt L rows es).pointer ≤ (passAt L rows es e).refs.pointer ∧
    (passAt L rows es e).result.links =
      (loadDataset L rows).filter (fun tx => decide (tx.normalizedTime ≤ e)) ∧
    (passAt L rows es e).result.links =
      (loadDataset L rows).take (passAt L rows es e).refs.pointer ∧
    (passAt L rows es e).result.links.Nodup ∧
    (replay (loadDataset L rows) (loadNodes L rows) (passAt L rows es e).refs e).refs =
      (passAt L rows es e).refs ∧
    (replay (loadDataset L rows) (loadNodes L rows) (passAt L rows es e).refs e).result =
      (passAt L rows es e).result := by
  have hlinks := final_links (loadDataset L rows) (loadNodes L rows) es e
    (loadDataset_increasing L rows) (mono_split es e hmono)
  have hidem := replay_idem (loadDataset L rows) (loadNodes L rows) (sessionAt L rows es) e
  refine ⟨?_, pointer_mono _ _ _ e, hlinks, ?_, ?_, ?_, ?_⟩
  · intro k
    have hsplit : sessionAt L rows es =
        passes (loadDataset L rows) (loadNodes L rows) (sessionAt L rows (es.take k))
          (es.drop k) := by
      unfold sessionAt
      rw [← passes_append, List.take_append_drop]
    rw [hsplit]
    exact passes_pointer_mono _ _ _ _
  · by_cases hne : loadDataset L rows = []
    · unfold passAt
      rw [hne, replay_nil]
      simp
    · have hs : Synced (loadDataset L rows) (passAt L rows es e).refs :=
        synced_replay _ _ _ e (synced_passes _ _ es _ (synced_init _))
      rw [← hs.1]
      unfold passAt
      rw [replay_ne _ _ _ e hne]
  · unfold passAt sessionAt
    rw [hlinks]
    exact (nodup_of_increasing _ (loadDataset_increasing L rows)).filter _
  · unfold passAt
    rw [hidem]
  · unfold passAt
    rw [hidem]

/-- Witness of C8 on the sample table: after passes at 0 and 100, the pass at 9000 returns
both records although the first one has expired (`endTime = 8000`). -/
theorem admission_invariant_witness :
    ([0, 100] ++ [9000]).Pairwise (fun a b : Int => a ≤ b) ∧
    (passAt flatLayout sampleRows [0, 100] 9000).result.links.map
        (fun t => (t.normalizedTime, t.endTime)) = [(0, 8000), (600, 8600)] ∧
    (passAt flatLayout sampleRows [0, 100] 9000).result.links =
      (loadDataset flatLayout sampleRows).filter
        (fun tx => decide (tx.normalizedTime ≤ 9000)) :=
  ⟨by decide, by decide,
    (admission_invariant flatLayout sampleRows [0, 100] 9000 (by decide)).2.2.1⟩

/-- C9: after a pass at `e` in any session reached from a fresh mount, a node has
`isPulse` exactly when it is the `from` or the `to` of a record of `graphData.links` with
`e <= endTime`; such a node has `lastActive = e`; `activeCount` is the number of distinct
endpoint ids of those records, which is the number of nodes with `isPulse`; and when `e`
is above the `endTime` of every processed record, `activeCount` is 0 and no node has
`isPulse`. -/
theorem pulse_window (L : Layout) (rows : List Row) (evs : List Event) (e : Int) :
    (∀ g ∈ (replay (loadDataset L rows) (loadNodes L rows) (appAt L rows evs).refs e).annotated,
      (g.isPulse = true ↔
        ∃ tx ∈ (replay (loadDataset L rows) (loadNodes L rows)
            (appAt L rows evs).refs e).result.links,
          e ≤ tx.endTime ∧ (tx.from_ = g.id ∨ tx.to_ = g.id)) ∧
      (g.isPulse = true → g.lastActive = e)) ∧
    (replay (loadDataset L rows) (loadNodes L rows) (appAt L rows evs).refs e).result.activeCount
      = ((((replay (loadDataset L rows) (loadNodes L rows)
              (appAt L rows evs).refs e).result.links.filter
            (fun tx => decide (e ≤ tx.endTime))).map Tx.from_ ++
          ((replay (loadDataset L rows) (loadNodes L rows)
              (appAt L rows evs).refs e).result.links.filter
            (fun tx => decide (e ≤ tx.endTime))).map Tx.to_).toFinset).card ∧
    (replay (loadDataset L rows) (loadNodes L rows) (appAt L rows evs).refs e).result.activeCount
      = ((replay (loadDataset L rows) (loadNodes L rows)
            (appAt L rows evs).refs e).annotated.filter (fun g => g.isPulse)).length ∧
    ((∀ tx ∈ loadDataset L rows, tx.endTime < e) →
      (replay (loadDataset L rows) (loadNodes L rows)
          (appAt L rows evs).refs e).result.activeCount = 0 ∧
      ∀ g ∈ (replay (loadDataset L rows) (loadNodes L rows)
          (appAt L rows evs).refs e).annotated, g.isPulse = false) := by
  have hs : Synced (loadDataset L rows) (appAt L rows evs).refs :=
    synced_run _ _ evs App.init (synced_init _)
  refine ⟨fun g hg => annotated_pulse _ _ _ e g hg, activeCount_eq _ _ _ e, ?_,
    fun hexp => all_expired _ _ _ e hs hexp⟩
  apply pulse_count _ _ _ e (loadNodes_nodup L rows)
  intro tx htx
  have hmem := result_links_mem _ _ _ e hs tx htx
  obtain ⟨⟨n1, hn1, hid1⟩, ⟨n2, hn2, hid2⟩⟩ := loadDataset_endpoints L rows tx hmem
  exact ⟨List.mem_map.2 ⟨n1, hn1, hid1⟩, List.mem_map.2 ⟨n2, hn2, hid2⟩⟩

/-- C10, as stated, fails. On the two-record table the first pass, at elapsed 0, returns
the link `A -> B` and no node at all; and after passes at 0 and 100 a pass at 100000
returns both links while the node `C`, whose only record was admitted after it had
expired, is not among the nodes. -/
theorem snapshot_closure_counterexample :
    ((passAt flatLayout pairRows [] 0).result.links.map (fun t => (t.from_, t.to_)) =
        [(some "A", some "B")] ∧
      (passAt flatLayout pairRows [] 0).result.nodes = [] ∧
      ¬ ∀ tx ∈ (passAt flatLayout pairRows [] 0).result.links,
          (∃ g ∈ (passAt flatLayout pairRows [] 0).result.nodes, g.id = tx.from_) ∧
          (∃ g ∈ (passAt flatLayout pairRows [] 0).result.nodes, g.id = tx.to_)) ∧
    ((passAt flatLayout pairRows [0, 100] 100000).result.links.map
          (fun t => (t.from_, t.to_)) = [(some "A", some "B"), (some "B", some "C")] ∧
      (passAt flatLayout pairRows [0, 100] 100000).result.nodes.map GraphNode.id =
        [some "A", some "B"] ∧
      ¬ ∀ tx ∈ (passAt flatLayout pairRows [0, 100] 100000).result.links,
          (∃ g ∈ (passAt flatLayout pairRows [0, 100] 100000).result.nodes, g.id = tx.from_) ∧
          (∃ g ∈ (passAt flatLayout pairRows [0, 100] 100000).result.nodes,
            g.id = tx.to_)) := by
  refine ⟨⟨by decide, by decide, by decide⟩, ⟨by decide, by decide, by decide⟩⟩

/-- C10, amended: from the initial state, along passes at non-decreasing elapsed values,
a processed record that was live (`normalizedTime <= t <= endTime`) at the current or an
earlier pass with elapsed `t > 0` is in `graphData.links` and both its endpoints are ids
of nodes of `graphData.nodes`. -/
theorem live_links_closed (L : Layout) (rows : List Row) (es : List Int) (e t : Int) (tx : Tx)
    (hmono : (es ++ [e]).Pairwise (fun a b => a ≤ b))
    (ht : t ∈ es ++ [e]) (hpos : 0 < t) (htx : tx ∈ loadDataset L rows)
    (hdue : tx.normalizedTime ≤ t) (hlive : t ≤ tx.endTime) :
    tx ∈ (passAt L rows es e).result.links ∧
    (∃ g ∈ (passAt L rows es e).result.nodes, g.id = tx.from_) ∧
    (∃ g ∈ (passAt L rows es e).result.nodes, g.id = tx.to_) := by
  have hne : loadDataset L rows ≠ [] := by
    intro h0
    rw [h0] at htx
    simp at htx
  have hte : t ≤ e := by
    rcases List.mem_append.1 ht with h | h
    · exact mono_split es e hmono t h
    · rw [List.mem_singleton.1 h]
  obtain ⟨s1, s2⟩ := stamped_after (loadDataset L rows) (loadNodes L rows) es e t tx
    (loadDataset_increasing L rows) hmono ht hpos htx hdue hlive
  obtain ⟨⟨n1, hn1, hid1⟩, ⟨n2, hn2, hid2⟩⟩ := loadDataset_endpoints L rows tx htx
  refine ⟨?_, ?_, ?_⟩
  · unfold passAt sessionAt
    rw [final_links _ _ es e (loadDataset_increasing L rows) (mono_split es e hmono),
      List.mem_filter]
    exact ⟨htx, by simp only [due, decide_eq_true_eq]; omega⟩
  · rw [← hid1] at s1 ⊢
    exact result_nodes_of_stamp _ _ _ e hne n1 hn1 s1
  · rw [← hid2] at s2 ⊢
    exact result_nodes_of_stamp _ _ _ e hne n2 hn2 s2

/-- Witness of the amended C10: the record `A -> B` was live at the pass at 100, so after
the jump to 100000 it is still a link and `A` and `B` are still nodes. -/
theorem live_links_closed_witness :
    (∃ tx ∈ loadDataset flatLayout pairRows,
      (tx.from_, tx.to_, tx.normalizedTime, tx.endTime) = (some "A", some "B", 0, 8000) ∧
      tx ∈ (passAt flatLayout pairRows [0, 100] 100000).result.links ∧
      (∃ g ∈ (passAt flatLayout pairRows [0, 100] 100000).result.nodes, g.id = tx.from_) ∧
      (∃ g ∈ (passAt flatLayout pairRows [0, 100] 100000).result.nodes, g.id = tx.to_)) :=
  ⟨(loadDataset flatLayout pairRows).head (by decide), by decide, by decide,
    live_links_closed flatLayout pairRows [0, 100] 100000 100
      ((loadDataset flatLayout pairRows).head (by decide))
      (by decide) (by decide) (by decide) (by decide) (by decide) (by decide)⟩

end Timelapse
